import Mathlib

/-!
Verification of the zkpoker repository against its specification.

This file contains a shallow embedding of the parts of the code base that the
frozen claims are about:

- the Grumpkin curve arithmetic and the Noir-compatible Pedersen hash
  (sdk/src/grumpkin.ts, sdk/src/pedersen.ts, compiled in sdk/dist);
- the ElGamal card operations (elgamal.ts) and the card layer (card.ts);
- the two-player game-state module (game-state.ts) with its action constants;
- the hand-ranking table generator and its Merkle tree (hand-rankings.ts);
- the Poseidon-based commitment helpers (circom/sdk/poseidon.js); the Poseidon
  permutation itself lives in the external circomlibjs package, so it is
  modelled from the specification;
- the multi-player server engine (server/src/game/GameEngine.ts), its types,
  and the showdown resolution of server/src/game/GameRoom.ts.

Machine integers are embedded as Nat or Int (JavaScript bigint arithmetic is
exact), field arithmetic is embedded as Nat arithmetic with explicit reduction
modulo the field order, exactly as in the source.  Fallible code returns
Except.  Loops are embedded as structural recursions over an explicit fuel
argument whose value is large enough that the fuel can never run out on the
inputs the source feeds them (the fuel bounds are discharged in the proofs).
-/

set_option maxRecDepth 40000

/-! ### Fast modular exponentiation

Used only to certify primality of the Grumpkin base field order via Pratt
certificates (Mathlib lucas_primality); this is proof infrastructure, not part
of the embedded program. -/

def powModAux : Nat → Nat → Nat → Nat → Nat
  | 0, _, _, n => 1 % n
  | fuel + 1, a, e, n =>
    if e = 0 then 1 % n
    else
      let r := powModAux fuel ((a * a) % n) (e / 2) n
      if e % 2 = 1 then (r * (a % n)) % n else r

def powMod (a e n : Nat) : Nat := powModAux 300 a e n

theorem powModAux_eq : ∀ (fuel a e n : Nat), 0 < n → e < 2 ^ fuel →
    powModAux fuel a e n = a ^ e % n := by
  intro fuel
  induction fuel with
  | zero =>
    intro a e n _ he
    have he0 : e = 0 := by simpa using he
    subst he0
    simp [powModAux]
  | succ fuel ih =>
    intro a e n hn he
    by_cases he0 : e = 0
    · simp [powModAux, he0]
    · have hdiv : e / 2 < 2 ^ fuel := by
        have h2 : (2 : Nat) ^ (fuel + 1) = 2 ^ fuel * 2 := pow_succ 2 fuel
        omega
      have hr : powModAux fuel ((a * a) % n) (e / 2) n = a ^ (2 * (e / 2)) % n := by
        rw [ih ((a * a) % n) (e / 2) n hn hdiv, ← Nat.pow_mod, two_mul, pow_add, ← mul_pow]
      by_cases hodd : e % 2 = 1
      · simp only [powModAux, he0, if_false, hodd, if_true]
        rw [hr, ← Nat.mul_mod, ← pow_succ]
        have he2 : 2 * (e / 2) + 1 = e := by omega
        rw [he2]
      · simp only [powModAux, he0, if_false, hodd, if_true]
        rw [hr]
        have he2 : 2 * (e / 2) = e := by omega
        rw [he2]

theorem powMod_eq (a e n : Nat) (hn : 0 < n) (he : e < 2 ^ 300) :
    powMod a e n = a ^ e % n :=
  powModAux_eq 300 a e n hn he

theorem zmod_natCast_pow_eq_one_iff (a e n : Nat) (hn : 1 < n) (he : e < 2 ^ 300) :
    ((a : ZMod n) ^ e = 1) ↔ powMod a e n = 1 := by
  rw [powMod_eq a e n (by omega) he]
  have h1 : (1 : ZMod n) = ((1 : Nat) : ZMod n) := by simp
  rw [← Nat.cast_pow, h1, ZMod.natCast_eq_natCast_iff', Nat.one_mod_eq_one.mpr (by omega)]

/-- Lucas primality test specialised to a finite list of certified prime factors
of n - 1, with the modular exponentiations done through powMod so that the
kernel can evaluate them. -/
theorem lucasWith (n a : Nat) (qs : List Nat) (hn : 2 ≤ n) (hsz : n < 2 ^ 300)
    (hcover : ∀ q, Nat.Prime q → q ∣ n - 1 → q ∈ qs)
    (h1 : powMod a (n - 1) n = 1)
    (h2 : ∀ q ∈ qs, powMod a ((n - 1) / q) n ≠ 1) : Nat.Prime n := by
  refine lucas_primality n (a : ZMod n) ?_ ?_
  · exact (zmod_natCast_pow_eq_one_iff a (n - 1) n (by omega) (by omega)).mpr h1
  · intro q hq hdvd
    have hmem := hcover q hq hdvd
    have hlt : (n - 1) / q < 2 ^ 300 := lt_of_le_of_lt (Nat.div_le_self _ _) (by omega)
    intro hone
    exact h2 q hmem ((zmod_natCast_pow_eq_one_iff a ((n - 1) / q) n (by omega) hlt).mp hone)

theorem prime_eq_of_dvd_prime {q p : Nat} (hq : Nat.Prime q) (hp : Nat.Prime p)
    (h : q ∣ p) : q = p :=
  (Nat.prime_dvd_prime_iff_eq hq hp).mp h

theorem prime_eq_of_dvd_prime_pow {q p k : Nat} (hq : Nat.Prime q) (hp : Nat.Prime p)
    (h : q ∣ p ^ k) : q = p :=
  prime_eq_of_dvd_prime hq hp (hq.dvd_of_dvd_pow h)

/-! ### Pratt certificate chain for the Grumpkin base field order -/

theorem prime_983 : Nat.Prime 983 := by norm_num
theorem prime_11003 : Nat.Prime 11003 := by norm_num
theorem prime_237073 : Nat.Prime 237073 := by norm_num
theorem prime_3691 : Nat.Prime 3691 := by norm_num
theorem prime_4999 : Nat.Prime 4999 := by norm_num

theorem prime_405928799 : Nat.Prime 405928799 := by
  refine lucasWith 405928799 22 [2, 11, 3691, 4999] (by norm_num) (by norm_num) ?_ (by decide)
    (by decide)
  intro q hq hd
  have he : (405928799 : Nat) - 1 = 2 * (11 * (3691 * 4999)) := by norm_num
  rw [he] at hd
  rcases (Nat.Prime.dvd_mul hq).mp hd with h | h
  · simp [prime_eq_of_dvd_prime hq Nat.prime_two h]
  rcases (Nat.Prime.dvd_mul hq).mp h with h | h
  · simp [prime_eq_of_dvd_prime hq (by norm_num : Nat.Prime 11) h]
  rcases (Nat.Prime.dvd_mul hq).mp h with h | h
  · simp [prime_eq_of_dvd_prime hq prime_3691 h]
  · simp [prime_eq_of_dvd_prime hq prime_4999 h]
theorem prime_93001 : Nat.Prime 93001 := by norm_num
theorem prime_661 : Nat.Prime 661 := by norm_num
theorem prime_107 : Nat.Prime 107 := by norm_num
theorem prime_823 : Nat.Prime 823 := by norm_num
theorem prime_1593227 : Nat.Prime 1593227 := by norm_num
theorem prime_83 : Nat.Prime 83 := by norm_num
theorem prime_379 : Nat.Prime 379 := by norm_num
theorem prime_1637 : Nat.Prime 1637 := by norm_num
theorem prime_229 : Nat.Prime 229 := by norm_num
theorem prime_853 : Nat.Prime 853 := by norm_num
theorem prime_639533339 : Nat.Prime 639533339 := by
  refine lucasWith 639533339 2 [2, 229, 853, 1637] (by norm_num) (by norm_num) ?_ (by decide)
    (by decide)
  intro q hq hd
  have he : (639533339 : Nat) - 1 = 2 * (229 * (853 * 1637)) := by norm_num
  rw [he] at hd
  rcases (Nat.Prime.dvd_mul hq).mp hd with h | h
  · simp [prime_eq_of_dvd_prime hq Nat.prime_two h]
  rcases (Nat.Prime.dvd_mul hq).mp h with h | h
  · simp [prime_eq_of_dvd_prime hq prime_229 h]
  rcases (Nat.Prime.dvd_mul hq).mp h with h | h
  · simp [prime_eq_of_dvd_prime hq prime_853 h]
  · simp [prime_eq_of_dvd_prime hq prime_1637 h]

theorem prime_12048837557 : Nat.Prime 12048837557 := by
  refine lucasWith 12048837557 2 [2, 7, 661, 93001] (by norm_num) (by norm_num) ?_ (by decide)
    (by decide)
  intro q hq hd
  have he : (12048837557 : Nat) - 1 = 2 ^ 2 * (7 ^ 2 * (661 * 93001)) := by norm_num
  rw [he] at hd
  rcases (Nat.Prime.dvd_mul hq).mp hd with h | h
  · simp [prime_eq_of_dvd_prime_pow hq Nat.prime_two h]
  rcases (Nat.Prime.dvd_mul hq).mp h with h | h
  · simp [prime_eq_of_dvd_prime_pow hq (by norm_num : Nat.Prime 7) h]
  rcases (Nat.Prime.dvd_mul hq).mp h with h | h
  · simp [prime_eq_of_dvd_prime hq prime_661 h]
  · simp [prime_eq_of_dvd_prime hq prime_93001 h]

theorem prime_5156902474397 : Nat.Prime 5156902474397 := by
  refine lucasWith 5156902474397 2 [2, 107, 12048837557] (by norm_num) (by norm_num) ?_
    (by decide) (by decide)
  intro q hq hd
  have he : (5156902474397 : Nat) - 1 = 2 ^ 2 * (107 * 12048837557) := by norm_num
  rw [he] at hd
  rcases (Nat.Prime.dvd_mul hq).mp hd with h | h
  · simp [prime_eq_of_dvd_prime_pow hq Nat.prime_two h]
  rcases (Nat.Prime.dvd_mul hq).mp h with h | h
  · simp [prime_eq_of_dvd_prime hq prime_107 h]
  · simp [prime_eq_of_dvd_prime hq prime_12048837557 h]

theorem prime_1670836401704629 : Nat.Prime 1670836401704629 := by
  refine lucasWith 1670836401704629 2 [2, 3, 5156902474397] (by norm_num) (by norm_num) ?_
    (by decide) (by decide)
  intro q hq hd
  have he : (1670836401704629 : Nat) - 1 = 2 ^ 2 * (3 ^ 4 * 5156902474397) := by norm_num
  rw [he] at hd
  rcases (Nat.Prime.dvd_mul hq).mp hd with h | h
  · simp [prime_eq_of_dvd_prime_pow hq Nat.prime_two h]
  rcases (Nat.Prime.dvd_mul hq).mp h with h | h
  · simp [prime_eq_of_dvd_prime_pow hq Nat.prime_three h]
  · simp [prime_eq_of_dvd_prime hq prime_5156902474397 h]

theorem prime_65865678001877903 : Nat.Prime 65865678001877903 := by
  refine lucasWith 65865678001877903 5 [2, 83, 379, 1637, 639533339] (by norm_num) (by norm_num)
    ?_ (by decide) (by decide)
  intro q hq hd
  have he : (65865678001877903 : Nat) - 1 = 2 * (83 * (379 * (1637 * 639533339))) := by norm_num
  rw [he] at hd
  rcases (Nat.Prime.dvd_mul hq).mp hd with h | h
  · simp [prime_eq_of_dvd_prime hq Nat.prime_two h]
  rcases (Nat.Prime.dvd_mul hq).mp h with h | h
  · simp [prime_eq_of_dvd_prime hq prime_83 h]
  rcases (Nat.Prime.dvd_mul hq).mp h with h | h
  · simp [prime_eq_of_dvd_prime hq prime_379 h]
  rcases (Nat.Prime.dvd_mul hq).mp h with h | h
  · simp [prime_eq_of_dvd_prime hq prime_1637 h]
  · simp [prime_eq_of_dvd_prime hq prime_639533339 h]

theorem prime_13818364434197438864469338081 : Nat.Prime 13818364434197438864469338081 := by
  refine lucasWith 13818364434197438864469338081 3 [2, 5, 823, 1593227, 65865678001877903]
    (by norm_num) (by norm_num) ?_ (by decide) (by decide)
  intro q hq hd
  have he : (13818364434197438864469338081 : Nat) - 1 =
      2 ^ 5 * (5 * (823 * (1593227 * 65865678001877903))) := by norm_num
  rw [he] at hd
  rcases (Nat.Prime.dvd_mul hq).mp hd with h | h
  · simp [prime_eq_of_dvd_prime_pow hq Nat.prime_two h]
  rcases (Nat.Prime.dvd_mul hq).mp h with h | h
  · simp [prime_eq_of_dvd_prime hq (by norm_num : Nat.Prime 5) h]
  rcases (Nat.Prime.dvd_mul hq).mp h with h | h
  · simp [prime_eq_of_dvd_prime hq prime_823 h]
  rcases (Nat.Prime.dvd_mul hq).mp h with h | h
  · simp [prime_eq_of_dvd_prime hq prime_1593227 h]
  · simp [prime_eq_of_dvd_prime hq prime_65865678001877903 h]

/-- Primality of the Grumpkin base field order (the BN254 scalar field order),
certified by a Pratt chain. -/
theorem prime_grumpkin_field :
    Nat.Prime 21888242871839275222246405745257275088548364400416034343698204186575808495617 := by
  refine lucasWith 21888242871839275222246405745257275088548364400416034343698204186575808495617
    5 [2, 3, 13, 29, 983, 11003, 237073, 405928799, 1670836401704629,
       13818364434197438864469338081] (by norm_num) (by norm_num) ?_ (by decide) (by decide)
  intro q hq hd
  have he : (21888242871839275222246405745257275088548364400416034343698204186575808495617
      : Nat) - 1 =
      2 ^ 28 * (3 ^ 2 * (13 * (29 * (983 * (11003 * (237073 * (405928799 *
        (1670836401704629 * 13818364434197438864469338081)))))))) := by norm_num
  rw [he] at hd
  rcases (Nat.Prime.dvd_mul hq).mp hd with h | h
  · simp [prime_eq_of_dvd_prime_pow hq Nat.prime_two h]
  rcases (Nat.Prime.dvd_mul hq).mp h with h | h
  · simp [prime_eq_of_dvd_prime_pow hq Nat.prime_three h]
  rcases (Nat.Prime.dvd_mul hq).mp h with h | h
  · simp [prime_eq_of_dvd_prime hq (by norm_num : Nat.Prime 13) h]
  rcases (Nat.Prime.dvd_mul hq).mp h with h | h
  · simp [prime_eq_of_dvd_prime hq (by norm_num : Nat.Prime 29) h]
  rcases (Nat.Prime.dvd_mul hq).mp h with h | h
  · simp [prime_eq_of_dvd_prime hq prime_983 h]
  rcases (Nat.Prime.dvd_mul hq).mp h with h | h
  · simp [prime_eq_of_dvd_prime hq prime_11003 h]
  rcases (Nat.Prime.dvd_mul hq).mp h with h | h
  · simp [prime_eq_of_dvd_prime hq prime_237073 h]
  rcases (Nat.Prime.dvd_mul hq).mp h with h | h
  · simp [prime_eq_of_dvd_prime hq prime_405928799 h]
  rcases (Nat.Prime.dvd_mul hq).mp h with h | h
  · simp [prime_eq_of_dvd_prime hq prime_1670836401704629 h]
  · simp [prime_eq_of_dvd_prime hq prime_13818364434197438864469338081 h]

/-! ### Grumpkin curve arithmetic

Embedding of sdk/src/grumpkin.ts (identical to the compiled sdk/dist/grumpkin.js).
Field elements are JavaScript bigints reduced with the mod helper of the source;
they are embedded as Nat, with signed intermediate expressions embedded as Int
and reduced by fmod, the embedding of the mod helper (nonnegative remainder). -/

namespace Grumpkin

def FIELD_MODULUS : Nat :=
  21888242871839275222246405745257275088548364400416034343698204186575808495617

def CURVE_ORDER : Nat :=
  21888242871839275222246405745257275088597320940842291287137428166847048758761

/-- Curve coefficient b in y^2 = x^3 + b (a = 0, b = -17). -/
def B : Nat := FIELD_MODULUS - 17

/-- The mod helper of grumpkin.ts: remainder normalised to be nonnegative. -/
def fmod (n : Int) : Nat := (n % (FIELD_MODULUS : Int)).toNat

structure Point where
  x : Nat
  y : Nat
  isInfinity : Bool
deriving DecidableEq

structure Scalar where
  lo : Nat
  hi : Nat
deriving DecidableEq

def scalarFromBigint (value : Nat) : Scalar :=
  let normalized := value % CURVE_ORDER
  ⟨normalized % 2 ^ 128, normalized / 2 ^ 128⟩

def scalarToBigint (scalar : Scalar) : Nat := scalar.lo + scalar.hi * 2 ^ 128

/-- Loop body of modInverse (extended Euclidean algorithm).  The source tracks
the remainder chain (old_r, r) and the first Bezout coefficient chain
(old_s, s); the loop runs while r is nonzero.  The fuel argument only bounds
the iteration count of the while loop; modInverse passes more fuel than the
loop can consume, since the remainder strictly decreases at every step. -/
def egcdLoop : Nat → Nat → Nat → Int → Int → Nat × Int
  | 0, old_r, _, old_s, _ => (old_r, old_s)
  | fuel + 1, old_r, r, old_s, s =>
    if r = 0 then (old_r, old_s)
    else
      let quotient := old_r / r
      egcdLoop fuel r (old_r - quotient * r) s (old_s - (quotient : Int) * s)

/-- Modular inverse from grumpkin.ts.  The source throws when the argument is
zero or not invertible; on those inputs this embedding returns 0 instead (the
callers only invert nonzero field elements, as proved below). -/
def modInverse (a : Nat) : Nat :=
  let a' := a % FIELD_MODULUS
  fmod (egcdLoop (a' + 2) FIELD_MODULUS a' 0 1).2

def pointAtInfinity : Point := ⟨0, 0, true⟩

def isOnCurve (p : Point) : Bool :=
  if p.isInfinity then true
  else (p.y * p.y) % FIELD_MODULUS == (p.x * p.x * p.x + B) % FIELD_MODULUS

def negatePoint (p : Point) : Point :=
  if p.isInfinity then p else ⟨p.x, fmod (-(p.y : Int)), false⟩

def addPoints (p1 p2 : Point) : Point :=
  if p1.isInfinity then p2
  else if p2.isInfinity then p1
  else if p1.x = p2.x ∧ (p1.y + p2.y) % FIELD_MODULUS = 0 then pointAtInfinity
  else
    let lam : Nat :=
      if p1.x = p2.x ∧ p1.y = p2.y then
        ((3 * p1.x * p1.x) % FIELD_MODULUS * modInverse ((2 * p1.y) % FIELD_MODULUS)) %
          FIELD_MODULUS
      else
        (fmod ((p2.y : Int) - (p1.y : Int)) * modInverse (fmod ((p2.x : Int) - (p1.x : Int)))) %
          FIELD_MODULUS
    let x3 := fmod ((lam : Int) * (lam : Int) - (p1.x : Int) - (p2.x : Int))
    let y3 := fmod ((lam : Int) * ((p1.x : Int) - (x3 : Int)) - (p1.y : Int))
    ⟨x3, y3, false⟩

def subtractPoints (p1 p2 : Point) : Point := addPoints p1 (negatePoint p2)

/-- Double-and-add loop of scalarMul.  As with egcdLoop the fuel bounds the
while loop; scalarMul passes fuel k + 1 for multiplier k, which can never be
exhausted because the multiplier halves at every step. -/
def mulLoop : Nat → Point → Point → Nat → Point
  | 0, result, _, _ => result
  | fuel + 1, result, current, n =>
    if n = 0 then result
    else
      mulLoop fuel (if n % 2 = 1 then addPoints result current else result)
        (addPoints current current) (n / 2)

def scalarMul (point : Point) (scalar : Scalar) : Point :=
  let k := scalarToBigint scalar
  if k = 0 ∨ point.isInfinity then pointAtInfinity
  else mulLoop (k + 1) pointAtInfinity point k

def GENERATOR : Point :=
  ⟨1, 17631683881184975370165255887551781615748388533673675138860, false⟩

def fixedBaseScalarMul (scalar : Scalar) : Point := scalarMul GENERATOR scalar

def pointsEqual (p1 p2 : Point) : Bool :=
  if p1.isInfinity && p2.isInfinity then true
  else if p1.isInfinity || p2.isInfinity then false
  else p1.x == p2.x && p1.y == p2.y

end Grumpkin

/-! ### Pedersen hash

Embedding of sdk/src/pedersen.ts: the Noir-compatible Pedersen hash
H = sum(input[i] * G_i) + N * G_length over Grumpkin, returning the
x-coordinate (0 for the point at infinity). -/

namespace Pedersen

open Grumpkin

def PEDERSEN_GENERATORS : List Point := [
  ⟨0x083e7911d835097629f0067531fc15cafd79a89beecb39903f69572c636f4a5a,
   0x1a7f5efaad7f315c25a918f30cc8d7333fccab7ad7c90f14de81bcc528f9935d, false⟩,
  ⟨0x054aa86a73cb8a34525e5bbed6e43ba1198e860f5f3950268f71df4591bde402,
   0x209dcfbf2cfb57f9f6046f44d71ac6faf87254afc7407c04eb621a6287cac126, false⟩,
  ⟨0x1c44f2a5207c81c28a8321a5815ce8b1311024bbed131819bbdaf5a2ada84748,
   0x03aaee36e6422a1d0191632ac6599ae9eba5ac2c17a8c920aa3caf8b89c5f8a8, false⟩,
  ⟨0x26d8b1160c6821a30c65f6cb47124afe01c29f4338f44d4a12c9fccf22fb6fb2,
   0x05c70c3b9c0d25a4c100e3a27bf3cc375f8af8cdd9498ec4089a823d7464caff, false⟩,
  ⟨0x20ed9c6a1d27271c4498bfce0578d59db1adbeaa8734f7facc097b9b994fcf6e,
   0x29cd7d370938b358c62c4a00f73a0d10aba7e5aaa04704a0713f891ebeb92371, false⟩,
  ⟨0x0224a8abc6c8b8d50373d64cd2a1ab1567bf372b3b1f7b861d7f01257052d383,
   0x2358629b90eafb299d6650a311e79914b0215eb0a790810b26da5a826726d711, false⟩,
  ⟨0x0f106f6d46bc904a5290542490b2f238775ff3c445b2f8f704c466655f460a2a,
   0x29ab84d472f1d33f42fe09c47b8f7710f01920d6155250126731e486877bcf27, false⟩,
  ⟨0x0298f2e42249f0519c8a8abd91567ebe016e480f219b8c19461d6a595cc33696,
   0x035bec4b8520a4ece27bd5aafabee3dfe1390d7439c419a8c55aceb207aac83b, false⟩,
  ⟨0x2c9628479de4181ea77e7b0913ccf41d2a74155b1d9c82eaa220c218781f6f3b,
   0x278f86b8fd95520b5da23bee1a5e354dc5dcb0cb43d6b76e628ddbffb101d776, false⟩,
  ⟨0x0be1916f382e3532aa53a766fe74b1a983784caab90290aea7bf616bc371fb41,
   0x0f65545005e896f14249956344faf9addd762b7573a487b58f805a361d920a20, false⟩,
  ⟨0x29ff8437ae5bec89981441b23036a22b7fd5bee9eff0e83c0dd5b87bfb5bd60e,
   0x1fd247352b77e2676b22db23cf7cd482474f543e3480b5a39c42f839a306be10, false⟩,
  ⟨0x2f3bd4e98f8c8458cd58888749f0f5e582a43565767398e08e50e94b9b19a4d9,
   0x1f534906d1aa8b4ba74ad9e3f85ae3f8295e51eaafd15b5d116801b96360205b, false⟩]

def PEDERSEN_LENGTH_GENERATOR : Point :=
  ⟨0x2df8b940e5890e4e1377e05373fae69a1d754f6935e6a780b666947431f2cdcd,
   0x2ecd88d15967bc53b885912e0d16866154acb6aac2d3f85e27ca7eefb2c19083, false⟩

/-- Accumulation loop of pedersenHash over the inputs paired with their
generators.  The source throws when there are more than twelve inputs; no call
site passes more than eleven, and in that regime the generator list is never
exhausted. -/
def pedersenAux : List Nat → List Point → Point → Point
  | [], _, acc => acc
  | _ :: _, [], acc => acc
  | v :: vs, g :: gs, acc =>
    pedersenAux vs gs (addPoints acc (scalarMul g (scalarFromBigint (v % FIELD_MODULUS))))

def pedersenHash (inputs : List Nat) : Nat :=
  let acc := pedersenAux inputs PEDERSEN_GENERATORS pointAtInfinity
  let lengthTerm := scalarMul PEDERSEN_LENGTH_GENERATOR (scalarFromBigint inputs.length)
  let result := addPoints acc lengthTerm
  if result.isInfinity then 0 else result.x

end Pedersen

/-! ### Bridge from the embedded Grumpkin arithmetic to the Mathlib curve group

The Grumpkin base field is ZMod of the (prime) field order; the curve is the
short Weierstrass curve y^2 = x^3 - 17 over it.  Every embedded point with
coordinates below the modulus and correct curve flag represents a Mathlib
point, and the embedded operations are shown to implement the group law. -/

namespace CurveBridge

open Grumpkin

instance : Fact (Nat.Prime FIELD_MODULUS) := ⟨prime_grumpkin_field⟩

abbrev Fq := ZMod FIELD_MODULUS

def W : WeierstrassCurve Fq := ⟨0, 0, 0, 0, -17⟩

theorem W_a1 : W.a₁ = 0 := rfl
theorem W_a2 : W.a₂ = 0 := rfl
theorem W_a3 : W.a₃ = 0 := rfl
theorem W_a4 : W.a₄ = 0 := rfl
theorem W_a6 : W.a₆ = -17 := rfl

abbrev WPt := W.toAffine.Point

theorem fq_equation_iff (x y : Fq) :
    W.toAffine.Equation x y ↔ y * y = x * x * x - 17 := by
  rw [WeierstrassCurve.Affine.equation_iff]
  simp only [W_a1, W_a2, W_a3, W_a4, W_a6]
  constructor <;> intro h <;> linear_combination h

theorem W_delta : W.Δ = -124848 := by
  simp only [WeierstrassCurve.Δ, WeierstrassCurve.b₂, WeierstrassCurve.b₄, WeierstrassCurve.b₆,
    WeierstrassCurve.b₈, W_a1, W_a2, W_a3, W_a4, W_a6]
  ring

theorem W_delta_ne_zero : W.Δ ≠ 0 := by
  rw [W_delta]
  decide

theorem nonsingular_of_equation {x y : Fq} (h : y * y = x * x * x - 17) :
    W.toAffine.Nonsingular x y :=
  WeierstrassCurve.Affine.nonsingular_of_Δ_ne_zero W.toAffine ((fq_equation_iff x y).mpr h)
    W_delta_ne_zero

theorem equation_of_nonsingular {x y : Fq} (h : W.toAffine.Nonsingular x y) :
    y * y = x * x * x - 17 :=
  (fq_equation_iff x y).mp ((WeierstrassCurve.Affine.nonsingular_iff W x y).mp h).1

theorem negY_eq (x y : Fq) : W.toAffine.negY x y = -y := by
  simp [WeierstrassCurve.Affine.negY, W_a1, W_a3]

/-! #### Cast lemmas between the Nat embedding and the field -/

theorem field_modulus_pos : 0 < FIELD_MODULUS := by norm_num [FIELD_MODULUS]

theorem fmod_lt (z : Int) : fmod z < FIELD_MODULUS := by
  have hpos : (0 : Int) < (FIELD_MODULUS : Int) := by exact_mod_cast field_modulus_pos
  have h1 := Int.emod_lt_of_pos z hpos
  have h2 := Int.emod_nonneg z (ne_of_gt hpos)
  unfold fmod
  omega

theorem fmod_cast (z : Int) : ((fmod z : Nat) : Fq) = (z : Fq) := by
  have h2 := Int.emod_nonneg z (by exact_mod_cast ne_of_gt field_modulus_pos :
    (FIELD_MODULUS : Int) ≠ 0)
  unfold fmod
  have h3 : (((z % (FIELD_MODULUS : Int)).toNat : Nat) : Int) = z % (FIELD_MODULUS : Int) :=
    Int.toNat_of_nonneg h2
  have h4 : (((z % (FIELD_MODULUS : Int)).toNat : Nat) : Fq) =
      (((z % (FIELD_MODULUS : Int) : Int)) : Fq) := by
    rw [← h3]
    exact (Int.cast_natCast _).symm
  rw [h4, ZMod.intCast_eq_intCast_iff']
  exact Int.emod_emod_of_dvd z dvd_rfl

theorem natCast_mod_field (a : Nat) : ((a % FIELD_MODULUS : Nat) : Fq) = (a : Fq) :=
  ZMod.natCast_mod a FIELD_MODULUS

theorem natCast_inj_field {a b : Nat} (ha : a < FIELD_MODULUS) (hb : b < FIELD_MODULUS)
    (h : (a : Fq) = (b : Fq)) : a = b := by
  rwa [ZMod.natCast_eq_natCast_iff', Nat.mod_eq_of_lt ha, Nat.mod_eq_of_lt hb] at h

theorem natCast_eq_zero_iff_field (a : Nat) : (a : Fq) = 0 ↔ a % FIELD_MODULUS = 0 := by
  rw [ZMod.natCast_zmod_eq_zero_iff_dvd, Nat.dvd_iff_mod_eq_zero]

/-! #### Correctness of the extended Euclidean inverse -/

theorem egcdLoop_spec (A : Int) : ∀ (fuel r : Nat), r < fuel → ∀ (old_r : Nat) (old_s s : Int),
    old_s * A ≡ (old_r : Int) [ZMOD (FIELD_MODULUS : Int)] →
    s * A ≡ (r : Int) [ZMOD (FIELD_MODULUS : Int)] →
    (egcdLoop fuel old_r r old_s s).1 = Nat.gcd r old_r ∧
      (egcdLoop fuel old_r r old_s s).2 * A ≡
        ((egcdLoop fuel old_r r old_s s).1 : Int) [ZMOD (FIELD_MODULUS : Int)] := by
  intro fuel
  induction fuel using Nat.strong_induction_on with
  | _ fuel ih =>
    intro r hr old_r old_s s hbez1 hbez2
    cases fuel with
    | zero => omega
    | succ fuel =>
      by_cases hr0 : r = 0
      · subst hr0
        simp only [egcdLoop, if_pos rfl]
        exact ⟨(Nat.gcd_zero_left old_r).symm, by simpa using hbez1⟩
      · have hrpos : 0 < r := Nat.pos_of_ne_zero hr0
        have hmc : old_r / r * r = r * (old_r / r) := Nat.mul_comm _ _
        have hmod : old_r - old_r / r * r = old_r % r := by
          have hdm := Nat.div_add_mod old_r r
          rw [hmc]
          omega
        have hmodlt : old_r % r < r := Nat.mod_lt _ hrpos
        have hcast : ((old_r % r : Nat) : Int) =
            (old_r : Int) - ((old_r / r : Nat) : Int) * (r : Int) := by
          have h1 : ((old_r / r : Nat) : Int) * (r : Int) = (((old_r / r) * r : Nat) : Int) := by
            push_cast
            ring
          rw [h1]
          have h2 : old_r / r * r ≤ old_r := Nat.div_mul_le_self _ _
          have hdm := Nat.div_add_mod old_r r
          rw [hmc] at h2
          omega
        have hbez3 : (old_s - ((old_r / r : Nat) : Int) * s) * A ≡
            ((old_r % r : Nat) : Int) [ZMOD (FIELD_MODULUS : Int)] := by
          rw [hcast]
          calc (old_s - ((old_r / r : Nat) : Int) * s) * A
              = old_s * A - ((old_r / r : Nat) : Int) * (s * A) := by ring
            _ ≡ (old_r : Int) - ((old_r / r : Nat) : Int) * (r : Int)
                [ZMOD (FIELD_MODULUS : Int)] :=
              Int.ModEq.sub hbez1 (Int.ModEq.mul_left _ hbez2)
        have hres := ih fuel (by omega) (old_r % r) (by omega) r s
          (old_s - ((old_r / r : Nat) : Int) * s) hbez2 hbez3
        have hunfold : egcdLoop (fuel + 1) old_r r old_s s =
            egcdLoop fuel r (old_r % r) s (old_s - ((old_r / r : Nat) : Int) * s) := by
          simp only [egcdLoop, if_neg hr0]
          rw [hmod]
        rw [hunfold]
        exact ⟨by rw [hres.1, Nat.gcd_rec r old_r], hres.2⟩

theorem modInverse_spec (a : Nat) (h : a % FIELD_MODULUS ≠ 0) :
    ((modInverse a : Nat) : Fq) = (a : Fq)⁻¹ := by
  have hlt : a % FIELD_MODULUS < FIELD_MODULUS := Nat.mod_lt _ field_modulus_pos
  have hbez1 : (0 : Int) * ((a % FIELD_MODULUS : Nat) : Int) ≡
      ((FIELD_MODULUS : Nat) : Int) [ZMOD (FIELD_MODULUS : Int)] := by
    simp [Int.ModEq, Int.emod_self]
  have hbez2 : (1 : Int) * ((a % FIELD_MODULUS : Nat) : Int) ≡
      ((a % FIELD_MODULUS : Nat) : Int) [ZMOD (FIELD_MODULUS : Int)] := by
    rw [one_mul]
  have hspec := egcdLoop_spec ((a % FIELD_MODULUS : Nat) : Int) (a % FIELD_MODULUS + 2)
    (a % FIELD_MODULUS) (by omega) FIELD_MODULUS 0 1 hbez1 hbez2
  have hgcd : Nat.gcd (a % FIELD_MODULUS) FIELD_MODULUS = 1 := by
    have hndvd : ¬ FIELD_MODULUS ∣ a % FIELD_MODULUS := by
      intro hdvd
      have := Nat.le_of_dvd (Nat.pos_of_ne_zero h) hdvd
      omega
    have hco := (Nat.Prime.coprime_iff_not_dvd prime_grumpkin_field).mpr hndvd
    exact Nat.coprime_comm.mp hco
  rw [hgcd] at hspec
  have hmul : ((egcdLoop (a % FIELD_MODULUS + 2) FIELD_MODULUS (a % FIELD_MODULUS) 0 1).2 *
      ((a % FIELD_MODULUS : Nat) : Int) : Int) ≡ ((1 : Nat) : Int)
        [ZMOD (FIELD_MODULUS : Int)] := by
    have h2 := hspec.2
    rw [hspec.1] at h2
    exact h2
  have hfq : (((egcdLoop (a % FIELD_MODULUS + 2) FIELD_MODULUS (a % FIELD_MODULUS) 0 1).2 *
      ((a % FIELD_MODULUS : Nat) : Int) : Int) : Fq) = (((1 : Nat) : Int) : Fq) :=
    (ZMod.intCast_eq_intCast_iff _ _ _).mpr hmul
  push_cast at hfq
  have hfinal : ((modInverse a : Nat) : Fq) * (a : Fq) = 1 := by
    simp only [modInverse]
    rw [fmod_cast]
    exact_mod_cast hfq
  exact eq_inv_of_mul_eq_one_left hfinal


/-! #### Representation of embedded points as Mathlib curve points -/

def GoodPt (p : Point) : Prop :=
  p.x < FIELD_MODULUS ∧ p.y < FIELD_MODULUS ∧ (p.isInfinity = true → p.x = 0 ∧ p.y = 0)

def Represents (p : Point) (Q : WPt) : Prop :=
  (p.isInfinity = true ∧ Q = 0) ∨
  (p.isInfinity = false ∧ ∃ h : W.toAffine.Nonsingular (p.x : Fq) (p.y : Fq),
    Q = WeierstrassCurve.Affine.Point.some h)

theorem good_pointAtInfinity : GoodPt pointAtInfinity := by
  refine ⟨field_modulus_pos, field_modulus_pos, fun _ => ⟨rfl, rfl⟩⟩

theorem represents_pointAtInfinity : Represents pointAtInfinity 0 :=
  Or.inl ⟨rfl, rfl⟩

theorem some_eq_of_coords {x₁ y₁ x₂ y₂ : Fq} (hx : x₁ = x₂) (hy : y₁ = y₂)
    (h₁ : W.toAffine.Nonsingular x₁ y₁) :
    ∃ h₂ : W.toAffine.Nonsingular x₂ y₂,
      WeierstrassCurve.Affine.Point.some h₁ = WeierstrassCurve.Affine.Point.some h₂ := by
  subst hx
  subst hy
  exact ⟨h₁, rfl⟩

theorem natCast_ne_field {a b : Nat} (ha : a < FIELD_MODULUS) (hb : b < FIELD_MODULUS)
    (h : a ≠ b) : (a : Fq) ≠ (b : Fq) :=
  fun he => h (natCast_inj_field ha hb he)

theorem natCast_add_eq_zero_iff (a b : Nat) :
    ((a : Fq) + (b : Fq) = 0) ↔ (a + b) % FIELD_MODULUS = 0 := by
  rw [← Nat.cast_add, natCast_eq_zero_iff_field]

theorem represents_negate {p : Point} {P : WPt} (hg : GoodPt p) (hp : Represents p P) :
    Represents (negatePoint p) (-P) ∧ GoodPt (negatePoint p) := by
  rcases hp with ⟨hpi, rfl⟩ | ⟨hpi, hns, rfl⟩
  · rw [negatePoint, hpi, if_pos rfl, neg_zero]
    exact ⟨Or.inl ⟨hpi, rfl⟩, hg⟩
  · rw [negatePoint, hpi]
    simp only [Bool.false_eq_true, if_false]
    rw [WeierstrassCurve.Affine.Point.neg_some]
    have hcy : ((fmod (-(p.y : Int)) : Nat) : Fq) = W.toAffine.negY (p.x : Fq) (p.y : Fq) := by
      rw [fmod_cast, negY_eq]
      push_cast
      ring
    obtain ⟨h₂, he⟩ := some_eq_of_coords (rfl) hcy.symm (WeierstrassCurve.Affine.nonsingular_neg hns)
    exact ⟨Or.inr ⟨rfl, h₂, he⟩, ⟨hg.1, fmod_lt _, by intro hcontra; cases hcontra⟩⟩

theorem represents_add {p q : Point} {P Q : WPt} (hgp : GoodPt p) (hgq : GoodPt q)
    (hp : Represents p P) (hq : Represents q Q) :
    Represents (addPoints p q) (P + Q) ∧ GoodPt (addPoints p q) := by
  rcases hp with ⟨hpi, rfl⟩ | ⟨hpi, hpns, rfl⟩
  · rw [addPoints, hpi, if_pos rfl, zero_add]
    exact ⟨hq, hgq⟩
  rcases hq with ⟨hqi, rfl⟩ | ⟨hqi, hqns, rfl⟩
  · rw [addPoints, hpi, hqi]
    simp only [Bool.false_eq_true, if_false, if_pos rfl, add_zero]
    exact ⟨Or.inr ⟨hpi, hpns, rfl⟩, hgp⟩
  have hgoal : ∀ r : Point, ∀ R : WPt,
      addPoints p q = r → WeierstrassCurve.Affine.Point.some hpns +
        WeierstrassCurve.Affine.Point.some hqns = R → Represents r R → GoodPt r →
      Represents (addPoints p q) (WeierstrassCurve.Affine.Point.some hpns +
        WeierstrassCurve.Affine.Point.some hqns) ∧ GoodPt (addPoints p q) := by
    intro r R h1 h2 h3 h4
    rw [h1, h2]
    exact ⟨h3, h1 ▸ h4⟩
  by_cases hc1 : p.x = q.x ∧ (p.y + q.y) % FIELD_MODULUS = 0
  · have hx : (p.x : Fq) = (q.x : Fq) := by rw [hc1.1]
    have hy : (p.y : Fq) = W.toAffine.negY (q.x : Fq) (q.y : Fq) := by
      rw [negY_eq]
      have h0 : ((p.y : Fq) + (q.y : Fq)) = 0 := (natCast_add_eq_zero_iff _ _).mpr hc1.2
      linear_combination h0
    have hres : addPoints p q = pointAtInfinity := by
      rw [addPoints, hpi, hqi]
      simp only [Bool.false_eq_true, if_false]
      rw [if_pos hc1]
    refine hgoal pointAtInfinity 0 hres ?_ represents_pointAtInfinity good_pointAtInfinity
    exact WeierstrassCurve.Affine.Point.add_of_Y_eq hx hy
  · by_cases hc2 : p.x = q.x ∧ p.y = q.y
    · -- doubling branch
      have hx : (p.x : Fq) = (q.x : Fq) := by rw [hc2.1]
      have hyne : (p.y : Fq) ≠ W.toAffine.negY (q.x : Fq) (q.y : Fq) := by
        rw [negY_eq]
        intro hcon
        have h0 : ((p.y : Fq) + (q.y : Fq)) = 0 := by
          rw [hc2.2] at hcon ⊢
          linear_combination hcon
        exact hc1 ⟨hc2.1, (natCast_add_eq_zero_iff _ _).mp h0⟩
      have h2y : ((2 * p.y) % FIELD_MODULUS) % FIELD_MODULUS ≠ 0 := by
        rw [Nat.mod_mod_of_dvd _ dvd_rfl]
        intro h0
        have hz : ((2 * p.y : Nat) : Fq) = 0 := (natCast_eq_zero_iff_field _).mpr h0
        push_cast at hz
        apply hyne
        rw [negY_eq, ← hc2.2]
        linear_combination hz
      have hinv := modInverse_spec ((2 * p.y) % FIELD_MODULUS) h2y
      have hslope : W.toAffine.slope (p.x : Fq) (q.x : Fq) (p.y : Fq) (q.y : Fq)
          = (3 * (p.x : Fq) * (p.x : Fq)) * (2 * (p.y : Fq))⁻¹ := by
        rw [WeierstrassCurve.Affine.slope_of_Y_ne hx hyne, negY_eq, div_eq_mul_inv]
        have e1 : 3 * (p.x : Fq) ^ 2 + 2 * W.a₂ * (p.x : Fq) + W.a₄ - W.a₁ * (p.y : Fq)
            = 3 * (p.x : Fq) * (p.x : Fq) := by
          simp only [W_a1, W_a2, W_a4]
          ring
        have e2 : (p.y : Fq) - -(p.y : Fq) = 2 * (p.y : Fq) := by ring
        rw [e1, e2]
      have hlamCast : ((((3 * p.x * p.x) % FIELD_MODULUS *
          modInverse ((2 * p.y) % FIELD_MODULUS)) % FIELD_MODULUS : Nat) : Fq) =
          W.toAffine.slope (p.x : Fq) (q.x : Fq) (p.y : Fq) (q.y : Fq) := by
        rw [natCast_mod_field, Nat.cast_mul, natCast_mod_field, hinv, natCast_mod_field, hslope]
        push_cast
        ring
      have hredInf : (addPoints p q).isInfinity = false := by
        rw [addPoints, hpi, hqi]
        simp only [Bool.false_eq_true, if_false, if_neg hc1, if_pos hc2]
      have hX : ((addPoints p q).x : Fq) = W.toAffine.addX (p.x : Fq) (q.x : Fq)
          (W.toAffine.slope (p.x : Fq) (q.x : Fq) (p.y : Fq) (q.y : Fq)) := by
        rw [addPoints, hpi, hqi]
        simp only [Bool.false_eq_true, if_false, if_neg hc1, if_pos hc2]
        rw [fmod_cast]
        push_cast [fmod_cast, hinv, natCast_mod_field]
        rw [hslope]
        simp only [WeierstrassCurve.Affine.addX, W_a1, W_a2]
        ring
      have hY : ((addPoints p q).y : Fq) = W.toAffine.addY (p.x : Fq) (q.x : Fq) (p.y : Fq)
          (W.toAffine.slope (p.x : Fq) (q.x : Fq) (p.y : Fq) (q.y : Fq)) := by
        rw [addPoints, hpi, hqi]
        simp only [Bool.false_eq_true, if_false, if_neg hc1, if_pos hc2]
        rw [fmod_cast]
        push_cast [fmod_cast, hinv, natCast_mod_field]
        rw [hslope]
        simp only [WeierstrassCurve.Affine.addY, WeierstrassCurve.Affine.negAddY,
          WeierstrassCurve.Affine.addX, WeierstrassCurve.Affine.negY, W_a1, W_a2, W_a3]
        ring
      have hXlt : (addPoints p q).x < FIELD_MODULUS := by
        rw [addPoints, hpi, hqi]
        simp only [Bool.false_eq_true, if_false, if_neg hc1, if_pos hc2]
        exact fmod_lt _
      have hYlt : (addPoints p q).y < FIELD_MODULUS := by
        rw [addPoints, hpi, hqi]
        simp only [Bool.false_eq_true, if_false, if_neg hc1, if_pos hc2]
        exact fmod_lt _
      have haddPQ : WeierstrassCurve.Affine.Point.some hpns +
          WeierstrassCurve.Affine.Point.some hqns = WeierstrassCurve.Affine.Point.some
            (WeierstrassCurve.Affine.nonsingular_add hpns hqns (fun _ => hyne)) :=
        WeierstrassCurve.Affine.Point.add_of_Y_ne hyne
      obtain ⟨h₂, hsome⟩ := some_eq_of_coords hX.symm hY.symm
        (WeierstrassCurve.Affine.nonsingular_add hpns hqns (fun _ => hyne))
      refine hgoal (addPoints p q) _ rfl haddPQ (Or.inr ⟨hredInf, h₂, hsome⟩) ?_
      exact ⟨hXlt, hYlt, by rw [hredInf]; intro hcontra; cases hcontra⟩
    · -- secant branch, first ruling out equal x with unequal y
      by_cases hxx : p.x = q.x
      · exfalso
        have he1 := equation_of_nonsingular hpns
        have he2 := equation_of_nonsingular hqns
        rw [hxx] at he1
        have hyy : ((p.y : Fq) - (q.y : Fq)) * ((p.y : Fq) + (q.y : Fq)) = 0 := by
          linear_combination he1 - he2
        rcases mul_eq_zero.mp hyy with h0 | h0
        · have : (p.y : Fq) = (q.y : Fq) := by linear_combination h0
          exact hc2 ⟨hxx, natCast_inj_field hgp.2.1 hgq.2.1 this⟩
        · exact hc1 ⟨hxx, (natCast_add_eq_zero_iff _ _).mp h0⟩
      · have hxne : (p.x : Fq) ≠ (q.x : Fq) := natCast_ne_field hgp.1 hgq.1 hxx
        have hdne : fmod ((q.x : Int) - (p.x : Int)) % FIELD_MODULUS ≠ 0 := by
          rw [Nat.mod_eq_of_lt (fmod_lt _)]
          intro h0
          have hz : ((fmod ((q.x : Int) - (p.x : Int)) : Nat) : Fq) = 0 := by
            rw [h0]
            simp
          rw [fmod_cast] at hz
          push_cast at hz
          apply hxne
          linear_combination -hz
        have hinv := modInverse_spec (fmod ((q.x : Int) - (p.x : Int))) hdne
        have hslope : W.toAffine.slope (p.x : Fq) (q.x : Fq) (p.y : Fq) (q.y : Fq)
            = ((q.y : Fq) - (p.y : Fq)) * ((q.x : Fq) - (p.x : Fq))⁻¹ := by
          rw [WeierstrassCurve.Affine.slope_of_X_ne hxne, div_eq_mul_inv]
          have e1 : (p.y : Fq) - (q.y : Fq) = -((q.y : Fq) - (p.y : Fq)) := by ring
          have e2 : (p.x : Fq) - (q.x : Fq) = -((q.x : Fq) - (p.x : Fq)) := by ring
          rw [e1, e2, inv_neg]
          ring
        have hlamCast : (((fmod ((q.y : Int) - (p.y : Int)) *
            modInverse (fmod ((q.x : Int) - (p.x : Int)))) % FIELD_MODULUS : Nat) : Fq) =
            W.toAffine.slope (p.x : Fq) (q.x : Fq) (p.y : Fq) (q.y : Fq) := by
          rw [natCast_mod_field, Nat.cast_mul, hinv, fmod_cast, fmod_cast, hslope]
          push_cast
          ring
        have hredInf : (addPoints p q).isInfinity = false := by
          rw [addPoints, hpi, hqi]
          simp only [Bool.false_eq_true, if_false, if_neg hc1, if_neg hc2]
        have hX : ((addPoints p q).x : Fq) = W.toAffine.addX (p.x : Fq) (q.x : Fq)
            (W.toAffine.slope (p.x : Fq) (q.x : Fq) (p.y : Fq) (q.y : Fq)) := by
          rw [addPoints, hpi, hqi]
          simp only [Bool.false_eq_true, if_false, if_neg hc1, if_neg hc2]
          rw [fmod_cast]
          push_cast [fmod_cast, hinv, natCast_mod_field]
          rw [hslope]
          simp only [WeierstrassCurve.Affine.addX, W_a1, W_a2]
          ring
        have hY : ((addPoints p q).y : Fq) = W.toAffine.addY (p.x : Fq) (q.x : Fq) (p.y : Fq)
            (W.toAffine.slope (p.x : Fq) (q.x : Fq) (p.y : Fq) (q.y : Fq)) := by
          rw [addPoints, hpi, hqi]
          simp only [Bool.false_eq_true, if_false, if_neg hc1, if_neg hc2]
          rw [fmod_cast]
          push_cast [fmod_cast, hinv, natCast_mod_field]
          rw [hslope]
          simp only [WeierstrassCurve.Affine.addY, WeierstrassCurve.Affine.negAddY,
            WeierstrassCurve.Affine.addX, WeierstrassCurve.Affine.negY, W_a1, W_a2, W_a3]
          ring
        have hXlt : (addPoints p q).x < FIELD_MODULUS := by
          rw [addPoints, hpi, hqi]
          simp only [Bool.false_eq_true, if_false, if_neg hc1, if_neg hc2]
          exact fmod_lt _
        have hYlt : (addPoints p q).y < FIELD_MODULUS := by
          rw [addPoints, hpi, hqi]
          simp only [Bool.false_eq_true, if_false, if_neg hc1, if_neg hc2]
          exact fmod_lt _
        have haddPQ : WeierstrassCurve.Affine.Point.some hpns +
            WeierstrassCurve.Affine.Point.some hqns = WeierstrassCurve.Affine.Point.some
              (WeierstrassCurve.Affine.nonsingular_add hpns hqns (fun hcontra => absurd hcontra hxne)) :=
          WeierstrassCurve.Affine.Point.add_of_X_ne hxne
        obtain ⟨h₂, hsome⟩ := some_eq_of_coords hX.symm hY.symm
          (WeierstrassCurve.Affine.nonsingular_add hpns hqns (fun hcontra => absurd hcontra hxne))
        refine hgoal (addPoints p q) _ rfl haddPQ (Or.inr ⟨hredInf, h₂, hsome⟩) ?_
        exact ⟨hXlt, hYlt, by rw [hredInf]; intro hcontra; cases hcontra⟩


theorem represents_subtract {p q : Point} {P Q : WPt} (hgp : GoodPt p) (hgq : GoodPt q)
    (hp : Represents p P) (hq : Represents q Q) :
    Represents (subtractPoints p q) (P - Q) ∧ GoodPt (subtractPoints p q) := by
  obtain ⟨hrn, hgn⟩ := represents_negate hgq hq
  rw [subtractPoints, sub_eq_add_neg]
  exact represents_add hgp hgn hp hrn

theorem represents_mulLoop : ∀ (fuel n : Nat), n < fuel → ∀ (p q : Point) (P Q : WPt),
    GoodPt p → GoodPt q → Represents p P → Represents q Q →
    Represents (mulLoop fuel p q n) (P + n • Q) ∧ GoodPt (mulLoop fuel p q n) := by
  intro fuel
  induction fuel with
  | zero => omega
  | succ fuel ih =>
    intro n hn p q P Q hgp hgq hp hq
    by_cases hn0 : n = 0
    · subst hn0
      rw [mulLoop, if_pos rfl]
      rw [zero_nsmul, add_zero]
      exact ⟨hp, hgp⟩
    · rw [mulLoop, if_neg hn0]
      have hq2 := represents_add hgq hgq hq hq
      have hstep : Represents (if n % 2 = 1 then addPoints p q else p) (P + (n % 2) • Q) ∧
          GoodPt (if n % 2 = 1 then addPoints p q else p) := by
        by_cases hpar : n % 2 = 1
        · rw [if_pos hpar, hpar, one_nsmul]
          exact represents_add hgp hgq hp hq
        · rw [if_neg hpar]
          have hz : n % 2 = 0 := by omega
          rw [hz, zero_nsmul, add_zero]
          exact ⟨hp, hgp⟩
      have hrec := ih (n / 2) (by omega) _ _ (P + (n % 2) • Q) (Q + Q)
        hstep.2 hq2.2 hstep.1 hq2.1
      have harith : P + (n % 2) • Q + (n / 2) • (Q + Q) = P + n • Q := by
        have h1 : (n / 2) • (Q + Q) = (2 * (n / 2)) • Q := by
          rw [two_mul, add_nsmul, nsmul_add]
        rw [h1, add_assoc, ← add_nsmul]
        have h2 : n % 2 + 2 * (n / 2) = n := by omega
        rw [h2]
      rw [harith] at hrec
      exact hrec

theorem represents_scalarMul {p : Point} {P : WPt} (hgp : GoodPt p) (hp : Represents p P)
    (s : Scalar) :
    Represents (scalarMul p s) ((scalarToBigint s) • P) ∧ GoodPt (scalarMul p s) := by
  simp only [scalarMul]
  by_cases hk : scalarToBigint s = 0 ∨ p.isInfinity = true
  · have hz : (scalarToBigint s) • P = 0 := by
      rcases hk with hk | hk
      · rw [hk, zero_nsmul]
      · rcases hp with ⟨_, rfl⟩ | ⟨hpi, _, _⟩
        · rw [nsmul_zero]
        · rw [hpi] at hk
          cases hk
    rw [if_pos hk, hz]
    exact ⟨represents_pointAtInfinity, good_pointAtInfinity⟩
  · rw [if_neg hk]
    have := represents_mulLoop (scalarToBigint s + 1) (scalarToBigint s) (by omega)
      pointAtInfinity p 0 P good_pointAtInfinity hgp represents_pointAtInfinity hp
    rwa [zero_add] at this

theorem generator_good : GoodPt GENERATOR := by
  refine ⟨?_, ?_, ?_⟩
  · norm_num [GENERATOR, FIELD_MODULUS]
  · norm_num [GENERATOR, FIELD_MODULUS]
  · intro h
    cases h

theorem generator_nonsingular :
    W.toAffine.Nonsingular ((GENERATOR.x : Nat) : Fq) ((GENERATOR.y : Nat) : Fq) := by
  apply nonsingular_of_equation
  decide

/-- The Mathlib point represented by the source generator. -/
def gW : WPt := WeierstrassCurve.Affine.Point.some generator_nonsingular

theorem represents_generator : Represents GENERATOR gW :=
  Or.inr ⟨rfl, generator_nonsingular, rfl⟩

theorem represents_fixedBase (s : Scalar) :
    Represents (fixedBaseScalarMul s) ((scalarToBigint s) • gW) ∧
      GoodPt (fixedBaseScalarMul s) := by
  rw [fixedBaseScalarMul]
  exact represents_scalarMul generator_good represents_generator s

theorem represents_zero_iff {p : Point} {P : WPt} (hp : Represents p P) :
    p.isInfinity = true ↔ P = 0 := by
  rcases hp with ⟨h1, rfl⟩ | ⟨h1, hn1, rfl⟩
  · simp [h1]
  · simp only [h1]
    constructor
    · intro hcontra
      cases hcontra
    · intro hcontra
      exact absurd hcontra (WeierstrassCurve.Affine.Point.some_ne_zero hn1)

theorem pointsEqual_iff {p q : Point} {P Q : WPt} (hgp : GoodPt p) (hgq : GoodPt q)
    (hp : Represents p P) (hq : Represents q Q) : pointsEqual p q = true ↔ P = Q := by
  rcases hp with ⟨h1, rfl⟩ | ⟨h1, hn1, rfl⟩ <;> rcases hq with ⟨h2, rfl⟩ | ⟨h2, hn2, rfl⟩
  · simp [pointsEqual, h1, h2]
  · simp only [pointsEqual, h1, h2, Bool.true_and, Bool.true_or, Bool.false_eq_true, if_false,
      if_true]
    constructor
    · intro hcontra
      cases hcontra
    · intro hcontra
      exact absurd hcontra.symm (WeierstrassCurve.Affine.Point.some_ne_zero hn2)
  · simp only [pointsEqual, h1, h2, Bool.and_false, Bool.or_true, Bool.false_eq_true, if_false,
      if_true]
    constructor
    · intro hcontra
      cases hcontra
    · intro hcontra
      exact absurd hcontra (WeierstrassCurve.Affine.Point.some_ne_zero hn1)
  · simp only [pointsEqual, h1, h2, Bool.and_self, Bool.or_self, Bool.false_eq_true, if_false]
    rw [Bool.and_eq_true, beq_iff_eq, beq_iff_eq]
    constructor
    · rintro ⟨hxe, hye⟩
      obtain ⟨h₂, he⟩ := some_eq_of_coords (by rw [hxe]) (by rw [hye]) hn1
      exact he
    · intro heq
      injection heq with hx1 hy1
      exact ⟨natCast_inj_field hgp.1 hgq.1 hx1, natCast_inj_field hgp.2.1 hgq.2.1 hy1⟩

end CurveBridge

/-! ### ElGamal card operations

Embedding of sdk/src/elgamal.ts and the card layer of sdk/src/card.ts.  A card
is a triple of Grumpkin points; masking and unmasking act on it as in the
source.  Operations that throw in the source return Except.error here. -/

namespace ElGamal

open Grumpkin

structure Card where
  epk : Point
  msg : Point
  pk : Point
deriving DecidableEq

def secretToPublicKey (secret : Scalar) : Point := fixedBaseScalarMul secret

def addPlayerToCardMask (card : Card) (playerSecret : Scalar) : Card :=
  let playerPub := fixedBaseScalarMul playerSecret
  let isFirstPlayer := card.pk.isInfinity
  let newPk := if isFirstPlayer then playerPub else addPoints card.pk playerPub
  let newMsg :=
    if isFirstPlayer || card.epk.isInfinity then card.msg
    else addPoints card.msg (scalarMul card.epk playerSecret)
  ⟨card.epk, newMsg, newPk⟩

def mask (card : Card) (nonce : Scalar) : Except String Card :=
  if card.pk.isInfinity then Except.error ("Cannot mask card with no players")
  else
    let ephemeralPub := fixedBaseScalarMul nonce
    let newEpk := if card.epk.isInfinity then ephemeralPub else addPoints card.epk ephemeralPub
    let sharedSecret := scalarMul card.pk nonce
    let newMsg := addPoints card.msg sharedSecret
    Except.ok ⟨newEpk, newMsg, card.pk⟩

def partialUnmask (card : Card) (playerSecret : Scalar) : Except String Card :=
  if card.pk.isInfinity then Except.error ("Card is already unmasked")
  else if card.epk.isInfinity then Except.error ("Invalid epk for unmasking")
  else
    let decryptionShare := scalarMul card.epk playerSecret
    let newMsg :=
      if pointsEqual card.msg decryptionShare then pointAtInfinity
      else subtractPoints card.msg decryptionShare
    let playerPub := fixedBaseScalarMul playerSecret
    let newPk :=
      if pointsEqual card.pk playerPub then pointAtInfinity
      else subtractPoints card.pk playerPub
    Except.ok ⟨card.epk, newMsg, newPk⟩

def addPlayerAndMask (card : Card) (playerSecret nonce : Scalar) : Except String Card :=
  mask (addPlayerToCardMask card playerSecret) nonce

/-- Create a new unmasked card from a card point (card.ts). -/
def createCardFromPoint (cardPoint : Point) : Card :=
  ⟨pointAtInfinity, cardPoint, pointAtInfinity⟩

/-- One addPlayerAndMask step per player, in order: the masking pipeline the
claim describes. -/
def maskAll (card : Card) : List (Scalar × Scalar) → Except String Card
  | [] => Except.ok card
  | (s, rho) :: rest => do
    let c ← addPlayerAndMask card s rho
    maskAll c rest

/-- One partialUnmask step per listed secret, in the order given. -/
def unmaskAll (card : Card) : List Scalar → Except String Card
  | [] => Except.ok card
  | s :: rest => do
    let c ← partialUnmask card s
    unmaskAll c rest

end ElGamal

/-! ### Algebraic invariant of the masking pipeline -/

namespace ElGamal

open Grumpkin CurveBridge

def GoodCard (c : Card) : Prop := GoodPt c.epk ∧ GoodPt c.msg ∧ GoodPt c.pk

/-- Invariant tying a card to the group: the ephemeral key is R copies of the
generator, the joint key S copies, and the message is the original point偏
shifted by S * R copies. -/
def RepInv (c : Card) (M0 : WPt) (S R : Nat) : Prop :=
  GoodCard c ∧ Represents c.epk (R • gW) ∧ Represents c.pk (S • gW) ∧
    Represents c.msg (M0 + (S * R) • gW)

theorem addPlayerToCardMask_inv {c : Card} {M0 : WPt} {S R : Nat} (s : Scalar)
    (h : RepInv c M0 S R) (hflag : c.pk.isInfinity = true → c.epk.isInfinity = true) :
    RepInv (addPlayerToCardMask c s) M0 (S + scalarToBigint s) R ∧
      (addPlayerToCardMask c s).epk = c.epk := by
  obtain ⟨⟨hgE, hgM, hgK⟩, hE, hK, hM⟩ := h
  have hpub := represents_fixedBase s
  constructor
  case right => rfl
  refine ⟨⟨hgE, ?_, ?_⟩, hE, ?_, ?_⟩
  · -- message component good
    simp only [addPlayerToCardMask]
    by_cases hfirst : c.pk.isInfinity = true
    · rw [hfirst]
      simp only [Bool.true_or, if_true]
      exact hgM
    · rw [Bool.not_eq_true] at hfirst
      rw [hfirst]
      simp only [Bool.false_or]
      by_cases he : c.epk.isInfinity = true
      · rw [he]
        simp only [if_true]
        exact hgM
      · rw [Bool.not_eq_true] at he
        rw [he]
        simp only [Bool.false_eq_true, if_false]
        exact (represents_add hgM (represents_scalarMul hgE hE s).2 hM
          (represents_scalarMul hgE hE s).1).2
  · -- pk component good
    simp only [addPlayerToCardMask]
    by_cases hfirst : c.pk.isInfinity = true
    · rw [hfirst]
      simp only [if_true]
      exact hpub.2
    · rw [Bool.not_eq_true] at hfirst
      rw [hfirst]
      simp only [Bool.false_eq_true, if_false]
      exact (represents_add hgK hpub.2 hK hpub.1).2
  · -- pk represents (S + s) copies
    simp only [addPlayerToCardMask]
    by_cases hfirst : c.pk.isInfinity = true
    · rw [hfirst]
      simp only [if_true]
      have hz0 : S • gW = 0 := (represents_zero_iff hK).mp hfirst
      have : (S + scalarToBigint s) • gW = scalarToBigint s • gW := by
        rw [add_nsmul, hz0, zero_add]
      rw [this]
      exact hpub.1
    · rw [Bool.not_eq_true] at hfirst
      rw [hfirst]
      simp only [Bool.false_eq_true, if_false]
      have := (represents_add hgK hpub.2 hK hpub.1).1
      rwa [← add_nsmul] at this
  · -- msg represents M0 + (S + s) * R copies
    simp only [addPlayerToCardMask]
    by_cases hfirst : c.pk.isInfinity = true
    · rw [hfirst]
      simp only [Bool.true_or, if_true]
      have hz : R • gW = 0 := (represents_zero_iff hE).mp (hflag hfirst)
      have harith : ∀ n : Nat, (n * R) • gW = 0 := fun n => by
        rw [mul_comm, mul_nsmul, hz, nsmul_zero]
      rw [harith, add_zero] at hM ⊢
      exact hM
    · rw [Bool.not_eq_true] at hfirst
      rw [hfirst]
      simp only [Bool.false_or]
      by_cases he : c.epk.isInfinity = true
      · rw [he]
        simp only [if_true]
        have hz : R • gW = 0 := (represents_zero_iff hE).mp he
        have harith : ∀ n : Nat, (n * R) • gW = 0 := fun n => by
          rw [mul_comm, mul_nsmul, hz, nsmul_zero]
        rw [harith, add_zero] at hM ⊢
        exact hM
      · rw [Bool.not_eq_true] at he
        rw [he]
        simp only [Bool.false_eq_true, if_false]
        have hsc := represents_scalarMul hgE hE s
        have hadd := represents_add hgM hsc.2 hM hsc.1
        have harith : M0 + (S * R) • gW + scalarToBigint s • R • gW =
            M0 + ((S + scalarToBigint s) * R) • gW := by
          rw [← mul_nsmul, add_assoc, ← add_nsmul]
          have hco : S * R + R * scalarToBigint s = (S + scalarToBigint s) * R := by ring
          rw [hco]
        rw [harith] at hadd
        exact hadd.1

theorem mask_inv {c : Card} {M0 : WPt} {S R : Nat} {nonce : Scalar} {c2 : Card}
    (h : RepInv c M0 S R) (hok : mask c nonce = Except.ok c2) :
    RepInv c2 M0 S (R + scalarToBigint nonce) ∧ c2.pk = c.pk ∧
      c2.pk.isInfinity = false := by
  obtain ⟨⟨hgE, hgM, hgK⟩, hE, hK, hM⟩ := h
  rw [mask] at hok
  by_cases hpk : c.pk.isInfinity = true
  · rw [if_pos hpk] at hok
    cases hok
  · rw [Bool.not_eq_true] at hpk
    rw [hpk] at hok
    simp only [Bool.false_eq_true, if_false, Except.ok.injEq] at hok
    have hpub := represents_fixedBase nonce
    have hshared := represents_scalarMul hgK hK nonce
    have hmsg := represents_add hgM hshared.2 hM hshared.1
    have hmsgEq : M0 + (S * R) • gW + scalarToBigint nonce • S • gW =
        M0 + (S * (R + scalarToBigint nonce)) • gW := by
      rw [← mul_nsmul, add_assoc, ← add_nsmul]
      have hco : S * R + S * scalarToBigint nonce = S * (R + scalarToBigint nonce) := by ring
      rw [hco]
    rw [hmsgEq] at hmsg
    have hepk : Represents (if c.epk.isInfinity then fixedBaseScalarMul nonce
        else addPoints c.epk (fixedBaseScalarMul nonce))
          ((R + scalarToBigint nonce) • gW) ∧
        GoodPt (if c.epk.isInfinity then fixedBaseScalarMul nonce
          else addPoints c.epk (fixedBaseScalarMul nonce)) := by
      by_cases he : c.epk.isInfinity = true
      · rw [he]
        simp only [if_true]
        have hz : R • gW = 0 := (represents_zero_iff hE).mp he
        have : (R + scalarToBigint nonce) • gW = scalarToBigint nonce • gW := by
          rw [add_nsmul, hz, zero_add]
        rw [this]
        exact hpub
      · rw [Bool.not_eq_true] at he
        rw [he]
        simp only [Bool.false_eq_true, if_false]
        have := represents_add hgE hpub.2 hE hpub.1
        rwa [← add_nsmul] at this
    subst hok
    exact ⟨⟨⟨hepk.2, hmsg.2, hgK⟩, hepk.1, hK, hmsg.1⟩, rfl, hpk⟩

theorem except_bind_ok {α β : Type} {x : Except String α} {f : α → Except String β} {b : β}
    (h : (x >>= f) = Except.ok b) : ∃ a, x = Except.ok a ∧ f a = Except.ok b := by
  cases x with
  | error e =>
    simp only [Bind.bind, Except.bind] at h
    cases h
  | ok a =>
    refine ⟨a, rfl, ?_⟩
    simpa only [Bind.bind, Except.bind] using h

theorem partialUnmask_inv {c : Card} {M0 : WPt} {S2 R : Nat} {s : Scalar} {c2 : Card}
    (h : RepInv c M0 (scalarToBigint s + S2) R) (hok : partialUnmask c s = Except.ok c2) :
    RepInv c2 M0 S2 R ∧ c2.epk = c.epk := by
  obtain ⟨⟨hgE, hgM, hgK⟩, hE, hK, hM⟩ := h
  rw [partialUnmask] at hok
  by_cases hpk : c.pk.isInfinity = true
  · rw [if_pos hpk] at hok
    cases hok
  by_cases hepk : c.epk.isInfinity = true
  · rw [Bool.not_eq_true] at hpk
    rw [hpk] at hok
    simp only [Bool.false_eq_true, if_false] at hok
    rw [if_pos hepk] at hok
    cases hok
  rw [Bool.not_eq_true] at hpk hepk
  rw [hpk, hepk] at hok
  simp only [Bool.false_eq_true, if_false, Except.ok.injEq] at hok
  have hdec := represents_scalarMul hgE hE s
  have hpub := represents_fixedBase s
  have hmsgSplit : M0 + ((scalarToBigint s + S2) * R) • gW =
      (M0 + (S2 * R) • gW) + scalarToBigint s • R • gW := by
    rw [← mul_nsmul]
    have hco : (scalarToBigint s + S2) * R = S2 * R + R * scalarToBigint s := by ring
    rw [hco, add_nsmul, add_assoc]
  have hpkSplit : (scalarToBigint s + S2) • gW = S2 • gW + scalarToBigint s • gW := by
    rw [add_comm (scalarToBigint s) S2, add_nsmul]
  have hmsgRep : Represents (if pointsEqual c.msg (scalarMul c.epk s) then pointAtInfinity
      else subtractPoints c.msg (scalarMul c.epk s)) (M0 + (S2 * R) • gW) ∧
      GoodPt (if pointsEqual c.msg (scalarMul c.epk s) then pointAtInfinity
        else subtractPoints c.msg (scalarMul c.epk s)) := by
    by_cases heq : pointsEqual c.msg (scalarMul c.epk s) = true
    · rw [if_pos heq]
      have hval := (pointsEqual_iff hgM hdec.2 hM hdec.1).mp heq
      have hz : M0 + (S2 * R) • gW = 0 := by
        have h0 : (M0 + (S2 * R) • gW) + scalarToBigint s • R • gW =
            0 + scalarToBigint s • R • gW := by
          rw [zero_add, ← hmsgSplit, hval]
        exact add_right_cancel h0
      rw [hz]
      exact ⟨represents_pointAtInfinity, good_pointAtInfinity⟩
    · rw [if_neg heq]
      have hsub := represents_subtract hgM hdec.2 hM hdec.1
      have : M0 + ((scalarToBigint s + S2) * R) • gW - scalarToBigint s • R • gW =
          M0 + (S2 * R) • gW := by
        rw [hmsgSplit]
        exact add_sub_cancel_right _ _
      rwa [this] at hsub
  have hpkRep : Represents (if pointsEqual c.pk (fixedBaseScalarMul s) then pointAtInfinity
      else subtractPoints c.pk (fixedBaseScalarMul s)) (S2 • gW) ∧
      GoodPt (if pointsEqual c.pk (fixedBaseScalarMul s) then pointAtInfinity
        else subtractPoints c.pk (fixedBaseScalarMul s)) := by
    by_cases heq : pointsEqual c.pk (fixedBaseScalarMul s) = true
    · rw [if_pos heq]
      have hval := (pointsEqual_iff hgK hpub.2 hK hpub.1).mp heq
      have hz : S2 • gW = 0 := by
        have h0 : S2 • gW + scalarToBigint s • gW = 0 + scalarToBigint s • gW := by
          rw [zero_add, ← hpkSplit, hval]
        exact add_right_cancel h0
      rw [hz]
      exact ⟨represents_pointAtInfinity, good_pointAtInfinity⟩
    · rw [if_neg heq]
      have hsub := represents_subtract hgK hpub.2 hK hpub.1
      have : (scalarToBigint s + S2) • gW - scalarToBigint s • gW = S2 • gW := by
        rw [hpkSplit]
        exact add_sub_cancel_right _ _
      rwa [this] at hsub
  subst hok
  exact ⟨⟨⟨hgE, hmsgRep.2, hpkRep.2⟩, hE, hpkRep.1, hmsgRep.1⟩, rfl⟩

theorem maskAll_inv : ∀ (pairs : List (Scalar × Scalar)) (c : Card) (M0 : WPt) (S R : Nat),
    RepInv c M0 S R → (c.pk.isInfinity = true → c.epk.isInfinity = true) →
    ∀ c2, maskAll c pairs = Except.ok c2 →
    RepInv c2 M0 (S + (pairs.map (fun pr => scalarToBigint pr.1)).sum)
      (R + (pairs.map (fun pr => scalarToBigint pr.2)).sum) ∧
      (c2.pk.isInfinity = true → c2.epk.isInfinity = true) := by
  intro pairs
  induction pairs with
  | nil =>
    intro c M0 S R h hflag c2 hok
    rw [maskAll] at hok
    cases hok
    simpa using ⟨h, hflag⟩
  | cons pr rest ih =>
    intro c M0 S R h hflag c2 hok
    obtain ⟨s, rho⟩ := pr
    rw [maskAll] at hok
    obtain ⟨mid, hmid, hrest⟩ := except_bind_ok hok
    rw [addPlayerAndMask] at hmid
    have hstep1 := addPlayerToCardMask_inv s h hflag
    have hstep2 := mask_inv hstep1.1 hmid
    have hmidflag : mid.pk.isInfinity = true → mid.epk.isInfinity = true := by
      intro hcontra
      rw [hstep2.2.2] at hcontra
      cases hcontra
    have hrec := ih mid M0 (S + scalarToBigint s) (R + scalarToBigint rho)
      hstep2.1 hmidflag c2 hrest
    simp only [List.map_cons, List.sum_cons]
    have e1 : S + scalarToBigint s +
        (rest.map (fun pr => scalarToBigint pr.1)).sum =
        S + (scalarToBigint s + (rest.map (fun pr => scalarToBigint pr.1)).sum) := by omega
    have e2 : R + scalarToBigint rho +
        (rest.map (fun pr => scalarToBigint pr.2)).sum =
        R + (scalarToBigint rho + (rest.map (fun pr => scalarToBigint pr.2)).sum) := by omega
    rw [e1, e2] at hrec
    exact hrec

theorem unmaskAll_inv : ∀ (order : List Scalar) (c : Card) (M0 : WPt) (R : Nat),
    RepInv c M0 ((order.map scalarToBigint).sum) R →
    ∀ c2, unmaskAll c order = Except.ok c2 → RepInv c2 M0 0 R := by
  intro order
  induction order with
  | nil =>
    intro c M0 R h c2 hok
    rw [unmaskAll] at hok
    cases hok
    simpa using h
  | cons s rest ih =>
    intro c M0 R h c2 hok
    rw [unmaskAll] at hok
    obtain ⟨mid, hmid, hrest⟩ := except_bind_ok hok
    rw [List.map_cons, List.sum_cons] at h
    have hstep := partialUnmask_inv h hmid
    exact ih mid M0 R hstep.1 c2 hrest

theorem represents_inj {p q : Point} {P : WPt} (hgp : GoodPt p) (hgq : GoodPt q)
    (hp : Represents p P) (hq : Represents q P) : p = q := by
  rcases hp with ⟨h1, rfl⟩ | ⟨h1, hn1, rfl⟩ <;> rcases hq with ⟨h2, h2e⟩ | ⟨h2, hn2, h2e⟩
  · obtain ⟨hx1, hy1⟩ := hgp.2.2 h1
    obtain ⟨hx2, hy2⟩ := hgq.2.2 h2
    cases p
    cases q
    simp_all
  · exact absurd h2e.symm (WeierstrassCurve.Affine.Point.some_ne_zero hn2)
  · exact absurd h2e (WeierstrassCurve.Affine.Point.some_ne_zero hn1)
  · injection h2e with hx hy
    have hxe := natCast_inj_field hgp.1 hgq.1 hx
    have hye := natCast_inj_field hgp.2.1 hgq.2.1 hy
    cases p
    cases q
    simp_all

/-- Core correctness of the masking pipeline: whatever completes without an
error returns the original message point with the joint key back at
infinity. -/
theorem pipeline_spec {M : Point} {Mw : WPt} (hgM : GoodPt M) (hM : Represents M Mw)
    (pairs : List (Scalar × Scalar)) (order : List Scalar)
    (hperm : order.Perm (pairs.map Prod.fst)) (card : Card)
    (hok : (maskAll (createCardFromPoint M) pairs >>= fun m => unmaskAll m order) =
      Except.ok card) :
    card.pk.isInfinity = true ∧ card.msg = M := by
  obtain ⟨mid, hmid, hun⟩ := except_bind_ok hok
  have hfresh : RepInv (createCardFromPoint M) Mw 0 0 := by
    refine ⟨⟨good_pointAtInfinity, hgM, good_pointAtInfinity⟩, ?_, ?_, ?_⟩
    · rw [zero_nsmul]
      exact represents_pointAtInfinity
    · rw [zero_nsmul]
      exact represents_pointAtInfinity
    · simpa [zero_nsmul] using hM
  have hmask := maskAll_inv pairs _ Mw 0 0 hfresh (fun _ => rfl) mid hmid
  have hsum : ((order.map scalarToBigint).sum) =
      ((pairs.map (fun pr => scalarToBigint pr.1)).sum) := by
    have hp2 := (hperm.map scalarToBigint).sum_eq
    rw [List.map_map] at hp2
    exact hp2
  have hmid2 : RepInv mid Mw ((order.map scalarToBigint).sum)
      (0 + (pairs.map (fun pr => scalarToBigint pr.2)).sum) := by
    rw [hsum]
    have := hmask.1
    rwa [zero_add] at this
  have hfin := unmaskAll_inv order mid Mw _ hmid2 card hun
  obtain ⟨⟨hgE, hgMsg, hgK⟩, hE, hK, hMsg⟩ := hfin
  rw [zero_nsmul] at hK
  constructor
  · exact (represents_zero_iff hK).mpr rfl
  · have hMsg2 : Represents card.msg Mw := by simpa [zero_nsmul] using hMsg
    exact represents_inj hgMsg hgM hMsg2 hM

end ElGamal

namespace SdkCard

open Grumpkin

/-- Deck size, from src/sdk/dist/card.js. -/
def DECK_SIZE : Nat := 52

/-- The 52 card primes, from src/sdk/dist/card.js. -/
def CARD_PRIMES : List Nat :=
  [2, 3, 5, 7, 11, 13, 17, 19, 23, 29, 31, 37, 41,
   43, 47, 53, 59, 61, 67, 71, 73, 79, 83, 89, 97, 101,
   103, 107, 109, 113, 127, 131, 137, 139, 149, 151, 157, 163, 167,
   173, 179, 181, 191, 193, 197, 199, 211, 223, 227, 229, 233, 239]

/-- Hash-to-curve for a card index, from cardIndexToPoint in src/sdk/dist/card.js.
The source throws for an index outside 0..51; the embedding uses getD and is
only invoked at indices below DECK_SIZE, where it agrees with the source. -/
def cardIndexToPoint (cardIndex : Nat) : Point :=
  fixedBaseScalarMul (scalarFromBigint (Pedersen.pedersenHash [CARD_PRIMES.getD cardIndex 0]))

/-- Fresh unmasked card for a card index, from createCard in src/sdk/dist/card.js. -/
def createCard (cardIndex : Nat) : ElGamal.Card :=
  ElGamal.createCardFromPoint (cardIndexToPoint cardIndex)

end SdkCard

/-- C1 (amended): partial mask/unmask commutativity. For every card index c below 52,
every list of (secret, nonce) pairs applied by addPlayerAndMask, and every
permutation of the secrets applied by partialUnmask, IF the pipeline completes
without an error then the resulting card has pk at infinity and msg equal to the
original card point cardIndexToPoint c. The original claim asserts this
unconditionally, but the pipeline can abort with an error (see the
counterexample with a zero secret), so only this partial form holds. -/
theorem c1_mask_unmask_commute (c : Nat) (hc : c < 52)
    (pairs : List (Grumpkin.Scalar × Grumpkin.Scalar)) (order : List Grumpkin.Scalar)
    (hperm : order.Perm (pairs.map Prod.fst)) (card : ElGamal.Card)
    (hok : (ElGamal.maskAll (SdkCard.createCard c) pairs >>= fun m =>
      ElGamal.unmaskAll m order) = Except.ok card) :
    card.pk.isInfinity = true ∧ card.msg = SdkCard.cardIndexToPoint c := by
  have hfb := CurveBridge.represents_fixedBase
    (Grumpkin.scalarFromBigint (Pedersen.pedersenHash [SdkCard.CARD_PRIMES.getD c 0]))
  have hgM : CurveBridge.GoodPt (SdkCard.cardIndexToPoint c) := hfb.2
  have hM : CurveBridge.Represents (SdkCard.cardIndexToPoint c) _ := hfb.1
  exact ElGamal.pipeline_spec hgM hM pairs order hperm card hok

theorem c1_mask_unmask_commute_witness :
    (0 : Nat) < 52 ∧
    ([] : List Grumpkin.Scalar).Perm
      (([] : List (Grumpkin.Scalar × Grumpkin.Scalar)).map Prod.fst) ∧
    (ElGamal.maskAll (SdkCard.createCard 0) [] >>= fun m =>
      ElGamal.unmaskAll m []) = Except.ok (SdkCard.createCard 0) ∧
    ((SdkCard.createCard 0).pk.isInfinity = true ∧
      (SdkCard.createCard 0).msg = SdkCard.cardIndexToPoint 0) :=
  ⟨by decide, List.Perm.refl [], rfl,
    c1_mask_unmask_commute 0 (by decide) [] [] (List.Perm.refl []) (SdkCard.createCard 0) rfl⟩

/-- C1 counterexample to the original unconditional claim: with a single player
whose secret is zero, the joint public key stays at infinity, so the masking
step itself aborts with an error instead of producing any card at all. -/
theorem c1_counterexample :
    (ElGamal.maskAll (SdkCard.createCard 0) [(⟨0, 0⟩, ⟨0, 0⟩)] >>= fun m =>
      ElGamal.unmaskAll m [⟨0, 0⟩]) =
    Except.error ("Cannot mask card with no players") := rfl

namespace GameStateSdk

/-- Action type constants, from src/unnamed/part_006 and part_009. -/
def ACTION_NULL : Nat := 0

def ACTION_BET : Nat := 1

def ACTION_CALL : Nat := 2

def ACTION_FOLD : Nat := 3

def ACTION_RAISE : Nat := 4

def ACTION_CHECK : Nat := 5

def ACTION_ALL_IN : Nat := 6

def STREET_PREFLOP : Nat := 0

def STREET_FLOP : Nat := 1

def STREET_TURN : Nat := 2

def STREET_RIVER : Nat := 3

def STREET_SHOWDOWN : Nat := 4

def STATUS_WAITING : Nat := 0

def STATUS_ACTIVE : Nat := 1

def STATUS_FINISHED : Nat := 2

/-- Heads-up SDK game state, from the GameState record in src/unnamed/part_009.
JS numbers used for chip counts are embedded as Int since the code subtracts
without clamping. -/
structure GameState where
  stackP1 : Int
  stackP2 : Int
  pot : Int
  street : Nat
  currentPlayer : Nat
  lastAction : Nat
  lastBetSize : Int
  streetBetP1 : Int
  streetBetP2 : Int
  status : Nat
  dealer : Nat
deriving DecidableEq

/-- Player action, from the Action record in src/unnamed/part_009. -/
structure Action where
  actionType : Nat
  amount : Int
deriving DecidableEq

/-- From createGameState in src/unnamed/part_009 lines 282-293. -/
def createGameState (stackP1 stackP2 : Int) (dealer : Nat) : GameState :=
  { stackP1 := stackP1, stackP2 := stackP2, pot := 0,
    street := STREET_PREFLOP,
    currentPlayer := if dealer = 1 then 2 else 1,
    lastAction := ACTION_NULL,
    lastBetSize := 0,
    streetBetP1 := 0, streetBetP2 := 0,
    status := STATUS_ACTIVE,
    dealer := dealer }

/-- From applyAction in src/unnamed/part_009 lines 326-376. -/
def applyAction (state : GameState) (action : Action) : GameState :=
  let currentStack := if state.currentPlayer = 1 then state.stackP1 else state.stackP2
  let myStreetBet := if state.currentPlayer = 1 then state.streetBetP1 else state.streetBetP2
  let oppStreetBet := if state.currentPlayer = 1 then state.streetBetP2 else state.streetBetP1
  let toCall := if oppStreetBet > myStreetBet then oppStreetBet - myStreetBet else 0
  let chipsToAdd : Int :=
    if action.actionType = ACTION_CALL then min toCall currentStack
    else if action.actionType = ACTION_BET then action.amount
    else if action.actionType = ACTION_RAISE then action.amount - myStreetBet
    else if action.actionType = ACTION_ALL_IN then currentStack
    else 0
  let newStackP1 := if state.currentPlayer = 1 then state.stackP1 - chipsToAdd else state.stackP1
  let newStackP2 := if state.currentPlayer = 2 then state.stackP2 - chipsToAdd else state.stackP2
  let newStreetBetP1 :=
    if state.currentPlayer = 1 then state.streetBetP1 + chipsToAdd else state.streetBetP1
  let newStreetBetP2 :=
    if state.currentPlayer = 2 then state.streetBetP2 + chipsToAdd else state.streetBetP2
  let newPot := state.pot + chipsToAdd
  let newStatus := if action.actionType = ACTION_FOLD then STATUS_FINISHED else state.status
  if newStreetBetP1 = newStreetBetP2 ∧ state.lastAction ≠ ACTION_NULL ∧
      (action.actionType = ACTION_CALL ∨ action.actionType = ACTION_CHECK) ∧
      state.street < STREET_SHOWDOWN then
    { stackP1 := newStackP1, stackP2 := newStackP2, pot := newPot,
      street := state.street + 1,
      currentPlayer := if state.dealer = 1 then 2 else 1,
      lastAction := ACTION_NULL, lastBetSize := 0,
      streetBetP1 := 0, streetBetP2 := 0,
      status := newStatus, dealer := state.dealer }
  else
    { stackP1 := newStackP1, stackP2 := newStackP2, pot := newPot,
      street := state.street,
      currentPlayer := if state.currentPlayer = 1 then 2 else 1,
      lastAction := action.actionType,
      lastBetSize :=
        if action.actionType = ACTION_RAISE then action.amount
        else if action.actionType = ACTION_BET then chipsToAdd
        else state.lastBetSize,
      streetBetP1 := newStreetBetP1, streetBetP2 := newStreetBetP2,
      status := newStatus, dealer := state.dealer }

/-- The chips added by an action as stated in the claim: 0 for fold and check
(and any other unlisted action type), min(toCall, stack) for call, the bet
amount for bet, amount minus the current street bet for raise, the full stack
for all-in. -/
def chipsAdded (state : GameState) (action : Action) : Int :=
  let currentStack := if state.currentPlayer = 1 then state.stackP1 else state.stackP2
  let myStreetBet := if state.currentPlayer = 1 then state.streetBetP1 else state.streetBetP2
  let oppStreetBet := if state.currentPlayer = 1 then state.streetBetP2 else state.streetBetP1
  let toCall := if oppStreetBet > myStreetBet then oppStreetBet - myStreetBet else 0
  if action.actionType = ACTION_CALL then min toCall currentStack
  else if action.actionType = ACTION_BET then action.amount
  else if action.actionType = ACTION_RAISE then action.amount - myStreetBet
  else if action.actionType = ACTION_ALL_IN then currentStack
  else 0

end GameStateSdk

/-- C4: pot conservation for the SDK applyAction. For every state whose acting
player index is 1 or 2 and every action, the pot after the action is the pot
before plus the chips the action adds, and the two stacks plus the pot are
conserved. -/
theorem c4_pot_conservation (s : GameStateSdk.GameState) (a : GameStateSdk.Action)
    (hcp : s.currentPlayer = 1 ∨ s.currentPlayer = 2) :
    (GameStateSdk.applyAction s a).pot = s.pot + GameStateSdk.chipsAdded s a ∧
    (GameStateSdk.applyAction s a).stackP1 + (GameStateSdk.applyAction s a).stackP2 +
      (GameStateSdk.applyAction s a).pot = s.stackP1 + s.stackP2 + s.pot := by
  rcases hcp with h | h <;>
    simp only [GameStateSdk.applyAction, GameStateSdk.chipsAdded, h] <;>
    norm_num <;>
    split_ifs <;>
    simp <;>
    omega

theorem c4_pot_conservation_witness :
    ((⟨100, 100, 0, 0, 1, 0, 0, 0, 0, 1, 1⟩ : GameStateSdk.GameState).currentPlayer = 1 ∨
      (⟨100, 100, 0, 0, 1, 0, 0, 0, 0, 1, 1⟩ : GameStateSdk.GameState).currentPlayer = 2) ∧
    ((GameStateSdk.applyAction ⟨100, 100, 0, 0, 1, 0, 0, 0, 0, 1, 1⟩ ⟨1, 10⟩).pot =
      (⟨100, 100, 0, 0, 1, 0, 0, 0, 0, 1, 1⟩ : GameStateSdk.GameState).pot +
        GameStateSdk.chipsAdded ⟨100, 100, 0, 0, 1, 0, 0, 0, 0, 1, 1⟩ ⟨1, 10⟩ ∧
     (GameStateSdk.applyAction ⟨100, 100, 0, 0, 1, 0, 0, 0, 0, 1, 1⟩ ⟨1, 10⟩).stackP1 +
       (GameStateSdk.applyAction ⟨100, 100, 0, 0, 1, 0, 0, 0, 0, 1, 1⟩ ⟨1, 10⟩).stackP2 +
       (GameStateSdk.applyAction ⟨100, 100, 0, 0, 1, 0, 0, 0, 0, 1, 1⟩ ⟨1, 10⟩).pot =
       (⟨100, 100, 0, 0, 1, 0, 0, 0, 0, 1, 1⟩ : GameStateSdk.GameState).stackP1 +
       (⟨100, 100, 0, 0, 1, 0, 0, 0, 0, 1, 1⟩ : GameStateSdk.GameState).stackP2 +
       (⟨100, 100, 0, 0, 1, 0, 0, 0, 0, 1, 1⟩ : GameStateSdk.GameState).pot) :=
  ⟨Or.inl rfl, c4_pot_conservation ⟨100, 100, 0, 0, 1, 0, 0, 0, 0, 1, 1⟩ ⟨1, 10⟩ (Or.inl rfl)⟩

namespace GameStateSdk

/-- Point of a masked card, from the MaskedCard interface in src/unnamed/part_005. -/
structure MaskedPoint where
  x : Nat
  y : Nat
  isInfinite : Bool
deriving DecidableEq

/-- Message component of a masked card: the interface carries no infinity flag
for msg, only raw coordinates (src/unnamed/part_005). -/
structure MsgPoint where
  x : Nat
  y : Nat
deriving DecidableEq

/-- Masked card, from src/unnamed/part_005. -/
structure MaskedCard where
  epk : MaskedPoint
  msg : MsgPoint
  pk : MaskedPoint
deriving DecidableEq

/-- From cardCommitment in src/unnamed/part_009 lines 379-385. -/
def cardCommitment (card : MaskedCard) : Nat :=
  let epkX := if card.epk.isInfinite then 0 else card.epk.x
  let epkY := if card.epk.isInfinite then 0 else card.epk.y
  let pkX := if card.pk.isInfinite then 0 else card.pk.x
  let pkY := if card.pk.isInfinite then 0 else card.pk.y
  Pedersen.pedersenHash [epkX, epkY, card.msg.x, card.msg.y, pkX, pkY]

end GameStateSdk

/-- C7 (amended): the epk and pk components of a card commitment are
canonicalized at infinity. For every masked card whose epk and pk are flagged
infinite, the commitment hashes 0 for all four epk and pk coordinates no matter
what coordinates are stored, as the claim states for never-masked cards. The
msg component, however, is hashed raw: the card type carries no infinity flag
for msg, so an identity-valued msg stored with affine coordinates (0, 1) is
hashed as (0, 1) and not canonicalized to (0, 0), contradicting the claim for
that component (see the counterexample). -/
theorem c7_commitment_canonicalization (card : GameStateSdk.MaskedCard)
    (he : card.epk.isInfinite = true) (hp : card.pk.isInfinite = true) :
    GameStateSdk.cardCommitment card =
      Pedersen.pedersenHash [0, 0, card.msg.x, card.msg.y, 0, 0] := by
  simp [GameStateSdk.cardCommitment, he, hp]

theorem c7_commitment_canonicalization_witness :
    ((⟨⟨5, 7, true⟩, ⟨3, 4⟩, ⟨9, 11, true⟩⟩ : GameStateSdk.MaskedCard).epk.isInfinite = true ∧
      (⟨⟨5, 7, true⟩, ⟨3, 4⟩, ⟨9, 11, true⟩⟩ : GameStateSdk.MaskedCard).pk.isInfinite = true) ∧
    GameStateSdk.cardCommitment ⟨⟨5, 7, true⟩, ⟨3, 4⟩, ⟨9, 11, true⟩⟩ =
      Pedersen.pedersenHash [0, 0, 3, 4, 0, 0] :=
  ⟨⟨rfl, rfl⟩, c7_commitment_canonicalization ⟨⟨5, 7, true⟩, ⟨3, 4⟩, ⟨9, 11, true⟩⟩ rfl rfl⟩

/-- C7 counterexample to the original claim: a card whose msg is the identity
point stored with its affine-style coordinates (0, 1) does not hash those
coordinates as (0, 0) — the commitment differs from the fully canonicalized
hash. -/
theorem c7_counterexample :
    GameStateSdk.cardCommitment ⟨⟨0, 0, true⟩, ⟨0, 1⟩, ⟨0, 0, true⟩⟩ ≠
      Pedersen.pedersenHash [0, 0, 0, 0, 0, 0] := by
  decide

namespace PoseidonJs

/-- Modelled from the spec: Poseidon is an input-length-absorbing algebraic
hash into the BN254 scalar field. The hash function itself lives in the
circomlibjs dependency, which is not part of this repository, so a concrete
length-absorbing fold into the field stands in for it; every theorem below
depends only on the fold structure of commitDeck, never on the internals of
this stand-in. -/
def hash (inputs : List Nat) : Nat :=
  inputs.foldl (fun acc x => (acc * 2 ^ 128 + x) % Grumpkin.FIELD_MODULUS)
    (inputs.length % Grumpkin.FIELD_MODULUS)

/-- Card as consumed by src/circom/sdk/poseidon.js commitCard: three coordinate
pairs. -/
structure PoseidonCard where
  epk : Nat × Nat
  msg : Nat × Nat
  pk : Nat × Nat
deriving DecidableEq

/-- From commitCard in src/circom/sdk/poseidon.js lines 34-44: the six
coordinates are hashed raw, with no canonicalization. -/
def commitCard (card : PoseidonCard) : Nat :=
  hash [card.epk.1, card.epk.2, card.msg.1, card.msg.2, card.pk.1, card.pk.2]

/-- From commitDeck in src/circom/sdk/poseidon.js lines 64-72: a plain product
of (commitCard + 1) over the cards, with no modular reduction anywhere. -/
def commitDeck (cards : List PoseidonCard) : Nat :=
  cards.foldl (fun product card => product * (commitCard card + 1)) 1

end PoseidonJs

namespace GameStateSdk

/-- The deck-commitment-before fold of generateShuffleProverToml in
src/unnamed/part_009 lines 450-459: each step multiplies by
(pedersenHash [0, 0, msgX, msgY, 0, 0] + 1) and reduces mod the field prime. -/
def deckCommitmentBefore (cards : List MsgPoint) : Nat :=
  cards.foldl
    (fun commitment card =>
      (commitment * (Pedersen.pedersenHash [0, 0, card.x, card.y, 0, 0] + 1)) %
        Grumpkin.FIELD_MODULUS) 1

end GameStateSdk

theorem foldl_mul_eq_prod {α : Type} (f : α → Nat) :
    ∀ (l : List α) (a : Nat), l.foldl (fun acc c => acc * f c) a = a * (l.map f).prod := by
  intro l
  induction l with
  | nil => intro a; simp
  | cons x xs ih =>
    intro a
    simp only [List.foldl_cons, List.map_cons, List.prod_cons]
    rw [ih (a * f x), mul_assoc]

theorem foldl_mul_mod_eq_prod_mod {α : Type} (f : α → Nat) :
    ∀ (l : List α) (a : Nat),
      l.foldl (fun acc c => acc * f c % Grumpkin.FIELD_MODULUS) (a % Grumpkin.FIELD_MODULUS) =
        a * (l.map f).prod % Grumpkin.FIELD_MODULUS := by
  intro l
  induction l with
  | nil => intro a; simp
  | cons x xs ih =>
    intro a
    simp only [List.foldl_cons, List.map_cons, List.prod_cons]
    rw [Nat.mod_mul_mod, ih (a * f x), mul_assoc]

/-- C5 (amended): the poseidon.js deck commitment equals the plain product of
(commitCard + 1) over the integers, with NO reduction modulo the field prime
(the original claim asserts the product is reduced mod p; see the
counterexample), and it is permutation-invariant; the deck-commitment fold of
generateShuffleProverToml in part_009, in contrast, does equal the product
reduced mod p and is likewise permutation-invariant. -/
theorem c5_deck_commitment (cards cards2 : List PoseidonJs.PoseidonCard)
    (hperm : cards.Perm cards2)
    (mcards mcards2 : List GameStateSdk.MsgPoint) (hmperm : mcards.Perm mcards2) :
    PoseidonJs.commitDeck cards = (cards.map (fun c => PoseidonJs.commitCard c + 1)).prod ∧
    PoseidonJs.commitDeck cards = PoseidonJs.commitDeck cards2 ∧
    GameStateSdk.deckCommitmentBefore mcards =
      (mcards.map (fun c => Pedersen.pedersenHash [0, 0, c.x, c.y, 0, 0] + 1)).prod %
        Grumpkin.FIELD_MODULUS ∧
    GameStateSdk.deckCommitmentBefore mcards = GameStateSdk.deckCommitmentBefore mcards2 := by
  have hprodForm : ∀ cs : List PoseidonJs.PoseidonCard,
      PoseidonJs.commitDeck cs = (cs.map (fun c => PoseidonJs.commitCard c + 1)).prod := by
    intro cs
    rw [PoseidonJs.commitDeck, foldl_mul_eq_prod (fun c => PoseidonJs.commitCard c + 1) cs 1,
      one_mul]
  have hmodForm : ∀ ms : List GameStateSdk.MsgPoint,
      GameStateSdk.deckCommitmentBefore ms =
        (ms.map (fun c => Pedersen.pedersenHash [0, 0, c.x, c.y, 0, 0] + 1)).prod %
          Grumpkin.FIELD_MODULUS := by
    intro ms
    have h2 := foldl_mul_mod_eq_prod_mod
      (fun c => Pedersen.pedersenHash [0, 0, c.x, c.y, 0, 0] + 1) ms 1
    rw [one_mul] at h2
    exact h2
  refine ⟨hprodForm cards, ?_, hmodForm mcards, ?_⟩
  · rw [hprodForm cards, hprodForm cards2]
    exact (hperm.map (fun c => PoseidonJs.commitCard c + 1)).prod_eq
  · rw [hmodForm mcards, hmodForm mcards2]
    rw [(hmperm.map (fun c => Pedersen.pedersenHash [0, 0, c.x, c.y, 0, 0] + 1)).prod_eq]

theorem c5_deck_commitment_witness :
    ([(⟨(0, 0), (0, 0), (0, 0)⟩ : PoseidonJs.PoseidonCard)].Perm
      [⟨(0, 0), (0, 0), (0, 0)⟩] ∧
     [(⟨1, 2⟩ : GameStateSdk.MsgPoint)].Perm [⟨1, 2⟩]) ∧
    (PoseidonJs.commitDeck [⟨(0, 0), (0, 0), (0, 0)⟩] =
      ([(⟨(0, 0), (0, 0), (0, 0)⟩ : PoseidonJs.PoseidonCard)].map
        (fun c => PoseidonJs.commitCard c + 1)).prod ∧
     PoseidonJs.commitDeck [⟨(0, 0), (0, 0), (0, 0)⟩] =
      PoseidonJs.commitDeck [⟨(0, 0), (0, 0), (0, 0)⟩] ∧
     GameStateSdk.deckCommitmentBefore [⟨1, 2⟩] =
      ([(⟨1, 2⟩ : GameStateSdk.MsgPoint)].map
        (fun c => Pedersen.pedersenHash [0, 0, c.x, c.y, 0, 0] + 1)).prod %
        Grumpkin.FIELD_MODULUS ∧
     GameStateSdk.deckCommitmentBefore [⟨1, 2⟩] =
      GameStateSdk.deckCommitmentBefore [⟨1, 2⟩]) :=
  ⟨⟨List.Perm.refl _, List.Perm.refl _⟩,
    c5_deck_commitment [⟨(0, 0), (0, 0), (0, 0)⟩] [⟨(0, 0), (0, 0), (0, 0)⟩]
      (List.Perm.refl _) [⟨1, 2⟩] [⟨1, 2⟩] (List.Perm.refl _)⟩

/-- C5 counterexample to the original claim that commitDeck is reduced modulo
the field prime: for a two-card deck the returned product already exceeds the
prime, so it differs from its own reduction. -/
theorem c5_counterexample :
    PoseidonJs.commitDeck [⟨(0, 0), (0, 0), (0, 0)⟩, ⟨(0, 0), (0, 0), (0, 0)⟩] ≠
      PoseidonJs.commitDeck [⟨(0, 0), (0, 0), (0, 0)⟩, ⟨(0, 0), (0, 0), (0, 0)⟩] %
        Grumpkin.FIELD_MODULUS := by
  decide

namespace HandRankings

/-- Rank primes, from RANK_PRIMES in src/sdk/dist/card.js. -/
def RANK_PRIMES : List Nat := [2, 3, 5, 7, 11, 13, 17, 19, 23, 29, 31, 37, 41]

/-- Rank indices 0..12, from RANKS in src/sdk/dist/hand-rankings.js. -/
def RANKS : List Nat := [0, 1, 2, 3, 4, 5, 6, 7, 8, 9, 10, 11, 12]

/-- Hand categories, from the HandCategory enum in src/sdk/dist/hand-rankings.js. -/
def CAT_ROYAL_FLUSH : Nat := 0

def CAT_STRAIGHT_FLUSH : Nat := 1

def CAT_FOUR_OF_A_KIND : Nat := 2

def CAT_FULL_HOUSE : Nat := 3

def CAT_FLUSH : Nat := 4

def CAT_STRAIGHT : Nat := 5

def CAT_THREE_OF_A_KIND : Nat := 6

def CAT_TWO_PAIR : Nat := 7

def CAT_ONE_PAIR : Nat := 8

def CAT_HIGH_CARD : Nat := 9

/-- All k-element combinations in order, from the combinations generator in
src/sdk/dist/hand-rankings.js: the element at each position is taken first with
the combinations of the remaining suffix, then skipped. -/
def combinations : Nat → List Nat → List (List Nat)
  | 0, _ => [[]]
  | _ + 1, [] => []
  | k + 1, x :: xs => ((combinations k xs).map (fun c => x :: c)) ++ combinations (k + 1) xs

/-- From primeProduct in src/sdk/dist/hand-rankings.js. -/
def primeProduct (ranks : List Nat) : Nat :=
  ranks.foldl (fun acc r => acc * RANK_PRIMES.getD r 0) 1

/-- From isStraight in src/sdk/dist/hand-rankings.js; only invoked on
five-element ascending lists. -/
def isStraight (sortedRanks : List Nat) : Bool :=
  let g := fun i => sortedRanks.getD i 0
  decide ((g 0 = 0 ∧ g 1 = 1 ∧ g 2 = 2 ∧ g 3 = 3 ∧ g 4 = 12) ∨
    (g 1 = g 0 + 1 ∧ g 2 = g 1 + 1 ∧ g 3 = g 2 + 1 ∧ g 4 = g 3 + 1))

/-- The JS array comparators scan a fixed index sequence and return the first
nonzero difference of b over a; this computes that signed difference. -/
def firstDiff (a b : List Nat) : List Nat → Int
  | [] => 0
  | i :: is =>
    if b.getD i 0 ≠ a.getD i 0 then (b.getD i 0 : Int) - (a.getD i 0 : Int)
    else firstDiff a b is

/-- 12 down to 0, the descending loops of generateHandRankings. -/
def desc13 : List Nat := (List.range 13).reverse

/-- Four of a kind section of generateHandRankings: (primeProduct, category)
payloads in push order. -/
def quadsSection : List (Nat × Nat) :=
  desc13.flatMap (fun q =>
    (desc13.filter (fun k => k ≠ q)).map (fun k =>
      (RANK_PRIMES.getD q 0 ^ 4 * RANK_PRIMES.getD k 0, CAT_FOUR_OF_A_KIND)))

/-- Full house section of generateHandRankings. -/
def fullHouseSection : List (Nat × Nat) :=
  desc13.flatMap (fun t =>
    (desc13.filter (fun p => p ≠ t)).map (fun p =>
      (RANK_PRIMES.getD t 0 ^ 3 * RANK_PRIMES.getD p 0 ^ 2, CAT_FULL_HOUSE)))

/-- Straight section of generateHandRankings (A-high down to the wheel). -/
def straightSection : List (Nat × Nat) :=
  [12, 11, 10, 9, 8, 7, 6, 5, 4, 3].map (fun high =>
    (primeProduct (if high = 3 then [3, 2, 1, 0, 12]
      else [high, high - 1, high - 2, high - 3, high - 4]), CAT_STRAIGHT))

/-- Three of a kind section of generateHandRankings. -/
def tripsSection : List (Nat × Nat) :=
  desc13.flatMap (fun t =>
    let others := RANKS.filter (fun r => r ≠ t)
    let kickerCombos := (combinations 2 others).map
      (fun c => List.insertionSort (fun a b => b ≤ a) c)
    let sorted := List.insertionSort (fun a b => firstDiff a b [0, 1] ≤ 0) kickerCombos
    sorted.map (fun ks =>
      (RANK_PRIMES.getD t 0 ^ 3 * RANK_PRIMES.getD (ks.getD 0 0) 0 *
        RANK_PRIMES.getD (ks.getD 1 0) 0, CAT_THREE_OF_A_KIND)))

/-- Two pair section of generateHandRankings. -/
def twoPairSection : List (Nat × Nat) :=
  ((List.range 12).reverse.map (fun h => h + 1)).flatMap (fun highPair =>
    (List.range highPair).reverse.flatMap (fun lowPair =>
      let others := RANKS.filter (fun r => r ≠ highPair ∧ r ≠ lowPair)
      let sortedKickers := List.insertionSort (fun a b => b ≤ a) others
      sortedKickers.map (fun k =>
        (RANK_PRIMES.getD highPair 0 ^ 2 * RANK_PRIMES.getD lowPair 0 ^ 2 *
          RANK_PRIMES.getD k 0, CAT_TWO_PAIR))))

/-- One pair section of generateHandRankings. -/
def onePairSection : List (Nat × Nat) :=
  desc13.flatMap (fun p =>
    let others := RANKS.filter (fun r => r ≠ p)
    let kickerCombos := (combinations 3 others).map
      (fun c => List.insertionSort (fun a b => b ≤ a) c)
    let sorted := List.insertionSort (fun a b => firstDiff a b [0, 1, 2] ≤ 0) kickerCombos
    sorted.map (fun ks =>
      (RANK_PRIMES.getD p 0 ^ 2 * RANK_PRIMES.getD (ks.getD 0 0) 0 *
        RANK_PRIMES.getD (ks.getD 1 0) 0 * RANK_PRIMES.getD (ks.getD 2 0) 0, CAT_ONE_PAIR)))

/-- High card section of generateHandRankings. -/
def highCardSection : List (Nat × Nat) :=
  let combosSorted := (combinations 5 RANKS).map (fun c => List.insertionSort (fun a b => a ≤ b) c)
  let nonStraight := combosSorted.filter (fun s => ! isStraight s)
  let descCombos := nonStraight.map (fun s => List.insertionSort (fun a b => b ≤ a) s)
  let sorted := List.insertionSort (fun a b => firstDiff a b [0, 1, 2, 3, 4] ≤ 0) descCombos
  sorted.map (fun ranks => (primeProduct ranks, CAT_HIGH_CARD))

/-- Straight flush high cards K through 6, from generateHandRankings. -/
def flushStraightHighs : List Nat := [11, 10, 9, 8, 7, 6, 5, 4]

/-- Non-straight flush section of generateHandRankings. -/
def flushSection : List (Nat × Nat) :=
  let allSorted := (combinations 5 RANKS).map (fun c => List.insertionSort (fun a b => a ≤ b) c)
  let nonStraight := allSorted.filter (fun s => ! isStraight s)
  let combos := nonStraight.map (fun s => (s, primeProduct s))
  let sorted := List.insertionSort (fun a b => firstDiff a.1 b.1 [4, 3, 2, 1, 0] ≤ 0) combos
  sorted.map (fun pr => (pr.2, CAT_FLUSH))

/-- Flush-table payloads of generateHandRankings in push order: royal flush,
straight flushes K-high down to 6-high, the wheel straight flush, then all
non-straight flushes by strength. -/
def flushPayload : List (Nat × Nat) :=
  (primeProduct [12, 11, 10, 9, 8], CAT_ROYAL_FLUSH) ::
    (flushStraightHighs.map (fun h =>
      (primeProduct [h, h - 1, h - 2, h - 3, h - 4], CAT_STRAIGHT_FLUSH))) ++
    [(primeProduct [3, 2, 1, 0, 12], CAT_STRAIGHT_FLUSH)] ++ flushSection

/-- Basic-table payloads of generateHandRankings in push order. -/
def basicPayload : List (Nat × Nat) :=
  quadsSection ++ fullHouseSection ++ straightSection ++ tripsSection ++
    twoPairSection ++ onePairSection ++ highCardSection

/-- One entry of the generated ranking tables, from the HandRanking record in
src/sdk/dist/hand-rankings.js; the human-readable description string is
omitted. -/
structure HandRanking where
  primeProduct : Nat
  rank : Nat
  category : Nat
  isFlush : Bool
deriving DecidableEq

/-- From generateHandRankings in src/sdk/dist/hand-rankings.js: both tables
assign rank sequentially from 0 in push order (the counter is reset between
the flush and basic tables), so the rank of an entry is its index. Returns
(basicHands, flushHands). -/
def generateHandRankings : List HandRanking × List HandRanking :=
  (basicPayload.enum.map (fun pr => ⟨pr.2.1, pr.1, pr.2.2, false⟩),
   flushPayload.enum.map (fun pr => ⟨pr.2.1, pr.1, pr.2.2, true⟩))

end HandRankings

theorem combinations_sublist : ∀ (k : Nat) (l : List Nat) (c : List Nat),
    c ∈ HandRankings.combinations k l → c.Sublist l
  | 0, l, c, hc => by
    simp only [HandRankings.combinations, List.mem_singleton] at hc
    subst hc
    exact List.nil_sublist l
  | k + 1, [], c, hc => by simp [HandRankings.combinations] at hc
  | k + 1, x :: xs, c, hc => by
    rw [HandRankings.combinations] at hc
    rcases List.mem_append.mp hc with h | h
    · obtain ⟨c0, hc0, rfl⟩ := List.mem_map.mp h
      exact List.Sublist.cons₂ x (combinations_sublist k xs c0 hc0)
    · exact List.Sublist.cons x (combinations_sublist (k + 1) xs c h)

theorem ranks_sorted : List.Sorted (fun a b => a ≤ b) HandRankings.RANKS := by decide

theorem combinations_insertionSort_eq (k : Nat) :
    (HandRankings.combinations k HandRankings.RANKS).map
      (fun c => List.insertionSort (fun a b => a ≤ b) c) =
      HandRankings.combinations k HandRankings.RANKS := by
  have h : ∀ c ∈ HandRankings.combinations k HandRankings.RANKS,
      List.insertionSort (fun a b => a ≤ b) c = c := by
    intro c hc
    exact List.Sorted.insertionSort_eq
      (List.Pairwise.sublist (combinations_sublist k HandRankings.RANKS c hc) ranks_sorted)
  rw [List.map_congr_left h]
  simp

set_option maxHeartbeats 2000000 in
theorem basicPayload_length : HandRankings.basicPayload.length = 6175 := by
  simp only [HandRankings.basicPayload, HandRankings.quadsSection, HandRankings.fullHouseSection,
    HandRankings.straightSection, HandRankings.tripsSection, HandRankings.twoPairSection,
    HandRankings.onePairSection, HandRankings.highCardSection,
    combinations_insertionSort_eq, List.length_append, List.length_flatMap,
    Function.comp_def, List.length_map, List.length_insertionSort]
  decide

set_option maxHeartbeats 2000000 in
theorem flushPayload_length : HandRankings.flushPayload.length = 1287 := by
  simp only [HandRankings.flushPayload, HandRankings.flushSection,
    combinations_insertionSort_eq, List.length_append, List.length_cons,
    Function.comp_def, List.length_map, List.length_insertionSort]
  decide

namespace HandRankings

/-- From hashTwo in src/sdk/dist/hand-rankings.js. -/
def hashTwo (a b : Nat) : Nat := Pedersen.pedersenHash [a, b]

/-- From hashLeaf in src/sdk/dist/hand-rankings.js. -/
def hashLeaf (pp rank : Nat) (isFl : Bool) : Nat :=
  Pedersen.pedersenHash [pp, rank, if isFl then 1 else 0]

/-- One pairwise-hash pass over a level, from the inner loop of buildMerkleTree
in src/sdk/dist/hand-rankings.js; only reached on even-length levels. -/
def pairHash : List Nat → List Nat
  | a :: b :: rest => hashTwo a b :: pairHash rest
  | _ => []

/-- The level-building while loop of buildMerkleTree, fuel-based: runs while
the current level has more than one node. -/
def buildTreeLevels : Nat → List Nat → List (List Nat)
  | 0, level => [level]
  | fuel + 1, level =>
    if 1 < level.length then level :: buildTreeLevels fuel (pairHash level) else [level]

/-- Return value of buildMerkleTree in src/sdk/dist/hand-rankings.js. -/
structure MerkleTree where
  root : Nat
  leaves : List Nat
  tree : List (List Nat)

/-- From MERKLE_DEPTH in src/sdk/dist/hand-rankings.js. -/
def MERKLE_DEPTH : Nat := 13

/-- From buildMerkleTree in src/sdk/dist/hand-rankings.js: leaves are the
hand leaf hashes padded with 0 to 2 to the MERKLE_DEPTH, hashed pairwise up
to the root. -/
def buildMerkleTree (hands : List HandRanking) : MerkleTree :=
  let leaves := hands.map (fun (h : HandRanking) => hashLeaf h.primeProduct h.rank h.isFlush)
  let padded := leaves ++ List.replicate (2 ^ MERKLE_DEPTH - leaves.length) 0
  let tree := buildTreeLevels (MERKLE_DEPTH + 1) padded
  { root := (tree.getLastD []).getD 0 0, leaves := padded, tree := tree }

/-- From getMerkleProof in src/sdk/dist/hand-rankings.js: sibling values and
is-right path bits, one per level below the root. -/
def getMerkleProof : List (List Nat) → Nat → List Nat × List Bool
  | lvl :: next :: rest, idx =>
    let sibIdx := if idx % 2 = 1 then idx - 1 else idx + 1
    let pr := getMerkleProof (next :: rest) (idx / 2)
    (lvl.getD sibIdx 0 :: pr.1, decide (idx % 2 = 1) :: pr.2)
  | _, _ => ([], [])

/-- The re-hashing loop of verifyMerkleProof in src/circom/sdk/poseidon.js
lines 85-95, with the pair hash instantiated to the pedersen hashTwo that the
hand-ranking Merkle trees use, and path indices as booleans (true when the
current node is the right child), the convention of getMerkleProof. -/
def verifyChain : Nat → List Nat → List Bool → Nat
  | current, e :: es, b :: bs =>
    verifyChain (if b then hashTwo e current else hashTwo current e) es bs
  | current, _, _ => current

/-- Final comparison of verifyMerkleProof in src/circom/sdk/poseidon.js. -/
def verifyMerkleProof (leaf : Nat) (proof : List Nat) (pathBits : List Bool) (root : Nat) :
    Bool :=
  decide (verifyChain leaf proof pathBits = root)

theorem pairHash_length : ∀ l : List Nat, (pairHash l).length = l.length / 2
  | [] => rfl
  | [_] => by simp [pairHash]
  | _ :: _ :: rest => by
    simp only [pairHash, List.length_cons, pairHash_length rest]
    omega

theorem buildTreeLevels_ne_nil (f : Nat) (l : List Nat) : buildTreeLevels f l ≠ [] := by
  cases f with
  | zero => simp [buildTreeLevels]
  | succ f =>
    rw [buildTreeLevels]
    split <;> simp

theorem getLastD_cons_of_ne_nil {α : Type} (a d : α) :
    ∀ l : List α, l ≠ [] → (a :: l).getLastD d = l.getLastD d
  | _ :: t, _ => by simp [List.getLastD_cons]

theorem pairHash_getD : ∀ (l : List Nat) (i : Nat), 2 * i + 1 < l.length →
    (pairHash l).getD i 0 = hashTwo (l.getD (2 * i) 0) (l.getD (2 * i + 1) 0)
  | _ :: _ :: _, 0, _ => by simp [pairHash]
  | a :: b :: rest, i + 1, h => by
    have hlt : 2 * i + 1 < rest.length := by
      simp only [List.length_cons] at h
      omega
    have hrec := pairHash_getD rest i hlt
    have h2 : 2 * (i + 1) = 2 * i + 1 + 1 := by omega
    have h3 : 2 * (i + 1) + 1 = 2 * i + 1 + 1 + 1 := by omega
    simp only [pairHash, h2, h3, List.getD_cons_succ]
    exact hrec
  | [], i, h => by simp at h
  | [a], i, h => by
    simp only [List.length_cons, List.length_nil] at h
    omega

theorem merkle_roundtrip : ∀ (k fuel : Nat), k < fuel → ∀ (level : List Nat) (idx : Nat),
    level.length = 2 ^ k → idx < level.length →
    verifyChain (level.getD idx 0) (getMerkleProof (buildTreeLevels fuel level) idx).1
        (getMerkleProof (buildTreeLevels fuel level) idx).2 =
      ((buildTreeLevels fuel level).getLastD []).getD 0 0 := by
  intro k
  induction k with
  | zero =>
    intro fuel hf level idx hlen hidx
    obtain ⟨f, rfl⟩ : ∃ f, fuel = f + 1 := ⟨fuel - 1, by omega⟩
    rw [buildTreeLevels]
    have hnot : ¬ 1 < level.length := by
      rw [hlen]
      norm_num
    rw [if_neg hnot]
    have hpr : getMerkleProof [level] idx = ([], []) := rfl
    rw [hpr]
    have hidx0 : idx = 0 := by
      rw [hlen] at hidx
      omega
    subst hidx0
    rfl
  | succ k ih =>
    intro fuel hf level idx hlen hidx
    obtain ⟨f, rfl⟩ : ∃ f, fuel = f + 1 := ⟨fuel - 1, by omega⟩
    have hk : k < f := by omega
    have hp1 : 1 ≤ 2 ^ k := Nat.one_le_two_pow
    have hgt : 1 < level.length := by
      rw [hlen]
      have : 2 ^ (k + 1) = 2 * 2 ^ k := by ring
      omega
    rw [buildTreeLevels, if_pos hgt]
    have hphl : (pairHash level).length = 2 ^ k := by
      rw [pairHash_length, hlen]
      have : 2 ^ (k + 1) = 2 ^ k * 2 := by ring
      omega
    obtain ⟨a, t, hat⟩ : ∃ a t, buildTreeLevels f (pairHash level) = a :: t := by
      cases hbt : buildTreeLevels f (pairHash level) with
      | nil => exact absurd hbt (buildTreeLevels_ne_nil f _)
      | cons a t => exact ⟨a, t, rfl⟩
    rw [hat]
    have hidx2 : idx / 2 < (pairHash level).length := by
      rw [hphl]
      rw [hlen] at hidx
      have : 2 ^ (k + 1) = 2 * 2 ^ k := by ring
      omega
    have hib := ih f hk (pairHash level) (idx / 2) hphl hidx2
    rw [hat] at hib
    simp only [getMerkleProof]
    rw [verifyChain]
    have hstep : (if decide (idx % 2 = 1) = true
        then hashTwo (level.getD (if idx % 2 = 1 then idx - 1 else idx + 1) 0) (level.getD idx 0)
        else hashTwo (level.getD idx 0)
          (level.getD (if idx % 2 = 1 then idx - 1 else idx + 1) 0)) =
        (pairHash level).getD (idx / 2) 0 := by
      rcases Nat.mod_two_eq_zero_or_one idx with hpar | hpar
      · have hd0 : decide (idx % 2 = 1) = false := by
          simp [hpar]
        have hs : (if idx % 2 = 1 then idx - 1 else idx + 1) = idx + 1 := by
          rw [if_neg]
          omega
        have he : idx = 2 * (idx / 2) := by omega
        have he1 : idx + 1 = 2 * (idx / 2) + 1 := by omega
        have hbound : 2 * (idx / 2) + 1 < level.length := by
          rw [hlen]
          rw [hlen] at hidx
          have : 2 ^ (k + 1) = 2 * 2 ^ k := by ring
          omega
        rw [hd0, hs]
        simp only [Bool.false_eq_true, if_false]
        rw [pairHash_getD level (idx / 2) hbound, ← he1, ← he]
      · have hd1 : decide (idx % 2 = 1) = true := by
          simp [hpar]
        have hs : (if idx % 2 = 1 then idx - 1 else idx + 1) = idx - 1 := by
          rw [if_pos hpar]
        have he : idx - 1 = 2 * (idx / 2) := by omega
        have he1 : idx = 2 * (idx / 2) + 1 := by omega
        have hbound : 2 * (idx / 2) + 1 < level.length := by
          omega
        rw [hd1, hs]
        simp only [if_true]
        rw [pairHash_getD level (idx / 2) hbound, ← he1, ← he]
    rw [hstep, hib]
    rw [getLastD_cons_of_ne_nil _ _ (a :: t) (by simp)]

end HandRankings

theorem buildMerkleTree_roundtrip (hands : List HandRankings.HandRanking)
    (hlen : hands.length ≤ 8192) (i : Nat) (hi : i < 8192) :
    HandRankings.verifyMerkleProof ((HandRankings.buildMerkleTree hands).leaves.getD i 0)
      (HandRankings.getMerkleProof (HandRankings.buildMerkleTree hands).tree i).1
      (HandRankings.getMerkleProof (HandRankings.buildMerkleTree hands).tree i).2
      (HandRankings.buildMerkleTree hands).root = true := by
  simp only [HandRankings.buildMerkleTree, HandRankings.verifyMerkleProof, decide_eq_true_eq]
  have hplen : (hands.map (fun (h : HandRankings.HandRanking) =>
      HandRankings.hashLeaf h.primeProduct h.rank h.isFlush) ++
      List.replicate (2 ^ HandRankings.MERKLE_DEPTH -
        (hands.map (fun (h : HandRankings.HandRanking) =>
          HandRankings.hashLeaf h.primeProduct h.rank h.isFlush)).length)
        0).length = 2 ^ 13 := by
    simp only [List.length_append, List.length_replicate, List.length_map,
      HandRankings.MERKLE_DEPTH]
    omega
  have hi2 : i < (hands.map (fun (h : HandRankings.HandRanking) =>
      HandRankings.hashLeaf h.primeProduct h.rank h.isFlush) ++
      List.replicate (2 ^ HandRankings.MERKLE_DEPTH -
        (hands.map (fun (h : HandRankings.HandRanking) =>
          HandRankings.hashLeaf h.primeProduct h.rank h.isFlush)).length)
        0).length := by
    rw [hplen]
    norm_num
    omega
  have := HandRankings.merkle_roundtrip 13 (HandRankings.MERKLE_DEPTH + 1) (by
    simp [HandRankings.MERKLE_DEPTH]) _ i hplen hi2
  exact this

/-- C8: generateHandRankings yields exactly 6175 basic (non-flush) entries and
1287 flush entries, 7462 equivalence classes in total, and for every generated
entry of either table, the sibling path returned by getMerkleProof for its
leaf in the tree built by buildMerkleTree re-hashes pairwise in path order to
that tree's root, so verification of the proof succeeds. -/
theorem c8_hand_rankings_roundtrip :
    HandRankings.generateHandRankings.1.length = 6175 ∧
    HandRankings.generateHandRankings.2.length = 1287 ∧
    HandRankings.generateHandRankings.1.length +
      HandRankings.generateHandRankings.2.length = 7462 ∧
    (∀ i, i < HandRankings.generateHandRankings.1.length →
      HandRankings.verifyMerkleProof
        ((HandRankings.buildMerkleTree HandRankings.generateHandRankings.1).leaves.getD i 0)
        (HandRankings.getMerkleProof
          (HandRankings.buildMerkleTree HandRankings.generateHandRankings.1).tree i).1
        (HandRankings.getMerkleProof
          (HandRankings.buildMerkleTree HandRankings.generateHandRankings.1).tree i).2
        (HandRankings.buildMerkleTree HandRankings.generateHandRankings.1).root = true) ∧
    (∀ i, i < HandRankings.generateHandRankings.2.length →
      HandRankings.verifyMerkleProof
        ((HandRankings.buildMerkleTree HandRankings.generateHandRankings.2).leaves.getD i 0)
        (HandRankings.getMerkleProof
          (HandRankings.buildMerkleTree HandRankings.generateHandRankings.2).tree i).1
        (HandRankings.getMerkleProof
          (HandRankings.buildMerkleTree HandRankings.generateHandRankings.2).tree i).2
        (HandRankings.buildMerkleTree HandRankings.generateHandRankings.2).root = true) := by
  have hb : HandRankings.generateHandRankings.1.length = 6175 := by
    simp only [HandRankings.generateHandRankings, List.length_map, List.enum_length]
    exact basicPayload_length
  have hf : HandRankings.generateHandRankings.2.length = 1287 := by
    simp only [HandRankings.generateHandRankings, List.length_map, List.enum_length]
    exact flushPayload_length
  refine ⟨hb, hf, by rw [hb, hf], ?_, ?_⟩
  · intro i hi
    rw [hb] at hi
    exact buildMerkleTree_roundtrip _ (by rw [hb]; norm_num) i (by omega)
  · intro i hi
    rw [hf] at hi
    exact buildMerkleTree_roundtrip _ (by rw [hf]; norm_num) i (by omega)

theorem c8_hand_rankings_roundtrip_witness :
    (0 : Nat) < HandRankings.generateHandRankings.1.length ∧
    HandRankings.verifyMerkleProof
      ((HandRankings.buildMerkleTree HandRankings.generateHandRankings.1).leaves.getD 0 0)
      (HandRankings.getMerkleProof
        (HandRankings.buildMerkleTree HandRankings.generateHandRankings.1).tree 0).1
      (HandRankings.getMerkleProof
        (HandRankings.buildMerkleTree HandRankings.generateHandRankings.1).tree 0).2
      (HandRankings.buildMerkleTree HandRankings.generateHandRankings.1).root = true :=
  ⟨by rw [c8_hand_rankings_roundtrip.1]; norm_num,
    c8_hand_rankings_roundtrip.2.2.2.1 0 (by rw [c8_hand_rankings_roundtrip.1]; norm_num)⟩

namespace Server

/-- From the Street enum in src/server/src/types/game.ts. -/
inductive Street where
  | PREFLOP
  | FLOP
  | TURN
  | RIVER
  | SHOWDOWN
deriving DecidableEq

/-- Numeric codepoints of the server Street enum. -/
def Street.toNat : Street → Nat
  | .PREFLOP => 0
  | .FLOP => 1
  | .TURN => 2
  | .RIVER => 3
  | .SHOWDOWN => 4

/-- From the ActionType enum in src/server/src/types/game.ts. -/
inductive ActionType where
  | FOLD
  | CHECK
  | CALL
  | BET
  | RAISE
  | ALL_IN
deriving DecidableEq

/-- Numeric codepoints of the server ActionType enum. -/
def ActionType.toNat : ActionType → Nat
  | .FOLD => 0
  | .CHECK => 1
  | .CALL => 2
  | .BET => 3
  | .RAISE => 4
  | .ALL_IN => 5

/-- From the GameStatus enum in src/server/src/types/game.ts: a string enum,
not a numeric one. -/
inductive GameStatus where
  | WAITING
  | SHUFFLE
  | DEALING
  | BETTING
  | SHOWDOWN
  | FINISHED
deriving DecidableEq

/-- String values of the server GameStatus enum. -/
def GameStatus.toStr : GameStatus → String
  | .WAITING => "waiting"
  | .SHUFFLE => "shuffle"
  | .DEALING => "dealing"
  | .BETTING => "betting"
  | .SHOWDOWN => "showdown"
  | .FINISHED => "finished"

end Server

/-- C9 (amended): the SDK constants (part_006 and part_009) have exactly the
claimed codepoints Action Null=0 Bet=1 Call=2 Fold=3 Raise=4 Check=5 AllIn=6,
Street Preflop=0..Showdown=4, Status Waiting=0 Active=1 Finished=2, and the
server Street enum matches; but the server ActionType enum uses the DIFFERENT
codepoints Fold=0 Check=1 Call=2 Bet=3 Raise=4 AllIn=5, and the server
GameStatus enum is string-valued (waiting/shuffle/dealing/betting/showdown/
finished), so the original claim does not hold for the server enumerations
(see the counterexample). -/
theorem c9_enum_codepoints :
    (GameStateSdk.ACTION_NULL = 0 ∧ GameStateSdk.ACTION_BET = 1 ∧
      GameStateSdk.ACTION_CALL = 2 ∧ GameStateSdk.ACTION_FOLD = 3 ∧
      GameStateSdk.ACTION_RAISE = 4 ∧ GameStateSdk.ACTION_CHECK = 5 ∧
      GameStateSdk.ACTION_ALL_IN = 6) ∧
    (GameStateSdk.STREET_PREFLOP = 0 ∧ GameStateSdk.STREET_FLOP = 1 ∧
      GameStateSdk.STREET_TURN = 2 ∧ GameStateSdk.STREET_RIVER = 3 ∧
      GameStateSdk.STREET_SHOWDOWN = 4) ∧
    (GameStateSdk.STATUS_WAITING = 0 ∧ GameStateSdk.STATUS_ACTIVE = 1 ∧
      GameStateSdk.STATUS_FINISHED = 2) ∧
    (Server.Street.toNat .PREFLOP = 0 ∧ Server.Street.toNat .FLOP = 1 ∧
      Server.Street.toNat .TURN = 2 ∧ Server.Street.toNat .RIVER = 3 ∧
      Server.Street.toNat .SHOWDOWN = 4) ∧
    (Server.ActionType.toNat .FOLD = 0 ∧ Server.ActionType.toNat .CHECK = 1 ∧
      Server.ActionType.toNat .CALL = 2 ∧ Server.ActionType.toNat .BET = 3 ∧
      Server.ActionType.toNat .RAISE = 4 ∧ Server.ActionType.toNat .ALL_IN = 5) ∧
    (Server.GameStatus.toStr .WAITING = "waiting" ∧
      Server.GameStatus.toStr .FINISHED = "finished") := by
  decide

/-- C9 counterexample to the original claim: the server ActionType enum does
not give Fold the codepoint 3 (it gives it 0). -/
theorem c9_counterexample : Server.ActionType.toNat .FOLD ≠ 3 := by
  decide

namespace Server

/-- From the PlayerState interface in src/server/src/types/messages.ts; the
connection and key metadata fields are not read by the embedded engine
functions and are omitted. -/
structure PlayerState where
  id : String
  seatIndex : Int
  stack : Int
  streetBet : Int
  totalBet : Int
  folded : Bool
  allIn : Bool
deriving DecidableEq

/-- From the SidePot interface in src/server/src/types/game.ts. -/
structure SidePot where
  amount : Int
  eligiblePlayers : List String
deriving DecidableEq

/-- From the GameConfig interface in src/server/src/types/game.ts; only the
blind fields are read by the embedded functions. -/
structure GameConfig where
  smallBlind : Int
  bigBlind : Int
deriving DecidableEq

/-- From the GameStateN interface in src/server/src/types/game.ts; the card
fields are not read by the embedded engine functions and are omitted. -/
structure GameStateN where
  players : List PlayerState
  pot : Int
  sidePots : List SidePot
  street : Street
  buttonPos : Int
  actionPos : Int
  lastAggressor : Option Int
  lastRaiseAmount : Int
  minRaise : Int
  status : GameStatus
deriving DecidableEq

/-- From GameEngine.getPlayerByIndex: first player at the seat. -/
def getPlayerByIndex (state : GameStateN) (seatIndex : Int) : Option PlayerState :=
  state.players.find? (fun p => p.seatIndex == seatIndex)

/-- From GameEngine.getPlayerById. -/
def getPlayerById (state : GameStateN) (playerId : String) : Option PlayerState :=
  state.players.find? (fun p => p.id == playerId)

/-- The scan loop of GameEngine.getNextActivePlayer, fuel = remaining
iterations. -/
def getNextActivePlayerAux (state : GameStateN) : Nat → Int → Int
  | 0, _ => -1
  | fuel + 1, seat =>
    match getPlayerByIndex state seat with
    | some player =>
      if !player.folded ∧ !player.allIn then seat
      else getNextActivePlayerAux state fuel ((seat + 1) % (state.players.length : Int))
    | none => getNextActivePlayerAux state fuel ((seat + 1) % (state.players.length : Int))

/-- From GameEngine.getNextActivePlayer: next not-folded not-all-in seat after
fromSeat, or -1 after a full cycle. -/
def getNextActivePlayer (state : GameStateN) (fromSeat : Int) : Int :=
  getNextActivePlayerAux state state.players.length
    ((fromSeat + 1) % (state.players.length : Int))

/-- From GameEngine.getSmallBlindPosition. -/
def getSmallBlindPosition (state : GameStateN) : Int :=
  if state.players.length = 2 then state.buttonPos
  else getNextActivePlayer state state.buttonPos

/-- From GameEngine.getBigBlindPosition. -/
def getBigBlindPosition (state : GameStateN) : Int :=
  getNextActivePlayer state (getSmallBlindPosition state)

/-- From GameEngine.getUTGPosition. -/
def getUTGPosition (state : GameStateN) : Int :=
  getNextActivePlayer state (getBigBlindPosition state)

/-- In-place mutation of the player object returned by getPlayerByIndex is
embedded as updating the first list entry at that seat. -/
def updateFirst (players : List PlayerState) (seatIndex : Int)
    (f : PlayerState → PlayerState) : List PlayerState :=
  match players with
  | [] => []
  | p :: ps =>
    if p.seatIndex = seatIndex then f p :: ps else p :: updateFirst ps seatIndex f

/-- The per-player mutation of a blind post in GameEngine.postBlinds: pay the
amount, set the street bet, add to the total bet, mark all-in when emptied. -/
def payBlind (amount : Int) (p : PlayerState) : PlayerState :=
  { p with
    stack := p.stack - amount
    streetBet := amount
    totalBet := p.totalBet + amount
    allIn := if p.stack - amount = 0 then true else p.allIn }

/-- One if-block of GameEngine.postBlinds: if a player sits at the position,
they pay min(blind, stack) into the pot. -/
def applyBlind (state : GameStateN) (pos : Int) (blind : Int) : GameStateN :=
  match getPlayerByIndex state pos with
  | some player =>
    let amount := min blind player.stack
    { state with
      players := updateFirst state.players pos (payBlind amount)
      pot := state.pot + amount }
  | none => state

/-- From GameEngine.postBlinds, src/server/src/game/GameEngine.ts lines
86-115: the small-blind and big-blind players (positions computed on the
incoming state, as in the source) each pay min(blind, stack); then raise
bookkeeping, action position and status are set. -/
def postBlinds (state : GameStateN) (config : GameConfig) : GameStateN :=
  let sbPos := getSmallBlindPosition state
  let bbPos := getBigBlindPosition state
  let st2 := applyBlind (applyBlind state sbPos config.smallBlind) bbPos config.bigBlind
  { st2 with
    lastRaiseAmount := config.bigBlind
    minRaise := config.bigBlind
    actionPos := getUTGPosition st2
    status := GameStatus.BETTING }

end Server

namespace Server

theorem payBlind_seatIndex (amount : Int) (p : PlayerState) :
    (payBlind amount p).seatIndex = p.seatIndex := rfl

theorem find_updateFirst_eq (seat : Int) (f : PlayerState → PlayerState)
    (hf : ∀ p, (f p).seatIndex = p.seatIndex) :
    ∀ (l : List PlayerState) (p : PlayerState),
      l.find? (fun q => q.seatIndex == seat) = some p →
      (updateFirst l seat f).find? (fun q => q.seatIndex == seat) = some (f p) := by
  intro l
  induction l with
  | nil => intro p hp; simp at hp
  | cons a t ih =>
    intro p hp
    by_cases ha : a.seatIndex = seat
    · rw [List.find?_cons_of_pos _ (by simp [ha])] at hp
      injection hp with hp
      subst hp
      rw [updateFirst, if_pos ha]
      rw [List.find?_cons_of_pos _ (by simp [hf, ha])]
    · rw [List.find?_cons_of_neg _ (by simp [ha])] at hp
      rw [updateFirst, if_neg ha]
      rw [List.find?_cons_of_neg _ (by simp [ha])]
      exact ih p hp

theorem find_updateFirst_ne (seat seat2 : Int) (hne : seat2 ≠ seat)
    (f : PlayerState → PlayerState) (hf : ∀ p, (f p).seatIndex = p.seatIndex) :
    ∀ l : List PlayerState,
      (updateFirst l seat f).find? (fun q => q.seatIndex == seat2) =
        l.find? (fun q => q.seatIndex == seat2) := by
  intro l
  induction l with
  | nil => rfl
  | cons a t ih =>
    by_cases ha : a.seatIndex = seat
    · rw [updateFirst, if_pos ha]
      have hno : ¬ (f a).seatIndex = seat2 := by
        rw [hf, ha]
        exact fun h => hne h.symm
      have hno2 : ¬ a.seatIndex = seat2 := by
        rw [ha]
        exact fun h => hne h.symm
      rw [List.find?_cons_of_neg _ (by simp [hno]), List.find?_cons_of_neg _ (by simp [hno2])]
    · rw [updateFirst, if_neg ha]
      by_cases ha2 : a.seatIndex = seat2
      · rw [List.find?_cons_of_pos _ (by simp [ha2]), List.find?_cons_of_pos _ (by simp [ha2])]
      · rw [List.find?_cons_of_neg _ (by simp [ha2]), List.find?_cons_of_neg _ (by simp [ha2])]
        exact ih

theorem mem_updateFirst (seat : Int) (f : PlayerState → PlayerState) :
    ∀ (l : List PlayerState) (x : PlayerState), x ∈ updateFirst l seat f →
      x ∈ l ∨ ∃ p, l.find? (fun q => q.seatIndex == seat) = some p ∧ x = f p := by
  intro l
  induction l with
  | nil => intro x hx; rw [updateFirst] at hx; simp at hx
  | cons a t ih =>
    intro x hx
    rw [updateFirst] at hx
    by_cases ha : a.seatIndex = seat
    · rw [if_pos ha] at hx
      rcases List.mem_cons.mp hx with h | h
      · right
        exact ⟨a, List.find?_cons_of_pos _ (by simp [ha]), h⟩
      · left
        exact List.mem_cons_of_mem a h
    · rw [if_neg ha] at hx
      rcases List.mem_cons.mp hx with h | h
      · left
        simp [h]
      · rcases ih x h with h2 | ⟨p, hp, hfp⟩
        · left
          exact List.mem_cons_of_mem a h2
        · right
          exact ⟨p, by rw [List.find?_cons_of_neg _ (by simp [ha])]; exact hp, hfp⟩

theorem applyBlind_eq {state : GameStateN} {pos : Int} {pl : PlayerState}
    (h : getPlayerByIndex state pos = some pl) (blind : Int) :
    applyBlind state pos blind =
      { state with
        players := updateFirst state.players pos (payBlind (min blind pl.stack))
        pot := state.pot + min blind pl.stack } := by
  rw [applyBlind, h]

end Server

/-- C10: blind posting never overdraws a stack. For every state in which the
small-blind and big-blind positions are occupied by (distinct-seat) players
and every stack is non-negative, postBlinds deducts exactly
min(blind, stack) from each blind player, adds exactly the deducted amounts to
the pot and to those players' streetBet and totalBet, marks a player all-in
exactly when the deduction empties their stack, and leaves every resulting
stack non-negative. -/
theorem c10_post_blinds_solvency (state : Server.GameStateN) (config : Server.GameConfig)
    (sb bb : Server.PlayerState)
    (hsb : Server.getPlayerByIndex state (Server.getSmallBlindPosition state) = some sb)
    (hbb : Server.getPlayerByIndex state (Server.getBigBlindPosition state) = some bb)
    (hne : Server.getSmallBlindPosition state ≠ Server.getBigBlindPosition state)
    (hstacks : ∀ p ∈ state.players, 0 ≤ p.stack) :
    (Server.postBlinds state config).pot =
      state.pot + min config.smallBlind sb.stack + min config.bigBlind bb.stack ∧
    Server.getPlayerByIndex (Server.postBlinds state config)
        (Server.getSmallBlindPosition state) =
      some (Server.payBlind (min config.smallBlind sb.stack) sb) ∧
    Server.getPlayerByIndex (Server.postBlinds state config)
        (Server.getBigBlindPosition state) =
      some (Server.payBlind (min config.bigBlind bb.stack) bb) ∧
    (∀ p ∈ (Server.postBlinds state config).players, 0 ≤ p.stack) := by
  have hseat : ∀ (a : Int) (p : Server.PlayerState),
      (Server.payBlind a p).seatIndex = p.seatIndex := fun a p => rfl
  have hbb1 : Server.getPlayerByIndex (Server.applyBlind state
      (Server.getSmallBlindPosition state) config.smallBlind)
      (Server.getBigBlindPosition state) = some bb := by
    rw [Server.applyBlind_eq hsb]
    rw [Server.getPlayerByIndex] at hbb ⊢
    exact (Server.find_updateFirst_ne _ _ (fun h => hne h.symm) _ (hseat _)
      state.players).trans hbb
  have hpost : Server.postBlinds state config =
      { Server.applyBlind (Server.applyBlind state (Server.getSmallBlindPosition state)
          config.smallBlind) (Server.getBigBlindPosition state) config.bigBlind with
        lastRaiseAmount := config.bigBlind
        minRaise := config.bigBlind
        actionPos := Server.getUTGPosition (Server.applyBlind (Server.applyBlind state
          (Server.getSmallBlindPosition state) config.smallBlind)
          (Server.getBigBlindPosition state) config.bigBlind)
        status := Server.GameStatus.BETTING } := rfl
  rw [hpost, Server.applyBlind_eq hbb1, Server.applyBlind_eq hsb]
  refine ⟨rfl, ?_, ?_, ?_⟩
  · rw [Server.getPlayerByIndex]
    show ((Server.updateFirst _ _ _).find? _) = _
    rw [Server.find_updateFirst_ne _ _ hne _ (hseat _)]
    show ((Server.updateFirst _ _ _).find? _) = _
    rw [Server.getPlayerByIndex] at hsb
    exact Server.find_updateFirst_eq _ _ (hseat _) state.players sb hsb
  · rw [Server.getPlayerByIndex]
    show ((Server.updateFirst _ _ _).find? _) = _
    have hfind : (Server.updateFirst state.players (Server.getSmallBlindPosition state)
        (Server.payBlind (min config.smallBlind sb.stack))).find?
        (fun q => q.seatIndex == Server.getBigBlindPosition state) = some bb := by
      rw [Server.find_updateFirst_ne _ _ (fun h => hne h.symm) _ (hseat _)]
      rw [Server.getPlayerByIndex] at hbb
      exact hbb
    exact Server.find_updateFirst_eq _ _ (hseat _) _ bb hfind
  · intro p hp
    rcases Server.mem_updateFirst _ _ _ p hp with h | ⟨q, hq, rfl⟩
    · rcases Server.mem_updateFirst _ _ _ p h with h2 | ⟨q, hq, rfl⟩
      · exact hstacks p h2
      · have hqsb : q = sb := by
          rw [Server.getPlayerByIndex] at hsb
          have h3 := hq.symm.trans hsb
          injection h3
        subst hqsb
        have hq2 : 0 ≤ q.stack := by
          rw [Server.getPlayerByIndex] at hsb
          exact hstacks q (List.mem_of_find?_eq_some hsb)
        show 0 ≤ q.stack - min config.smallBlind q.stack
        omega
    · have hqbb : q = bb := by
        rw [Server.find_updateFirst_ne _ _ (fun h => hne h.symm) _ (hseat _)] at hq
        rw [Server.getPlayerByIndex] at hbb
        have h3 := hq.symm.trans hbb
        injection h3
      subst hqbb
      have hq2 : 0 ≤ q.stack := by
        rw [Server.getPlayerByIndex] at hbb
        exact hstacks q (List.mem_of_find?_eq_some hbb)
      show 0 ≤ q.stack - min config.bigBlind q.stack
      omega

theorem c10_post_blinds_solvency_witness :
    (Server.getPlayerByIndex
        (⟨[⟨"a", 0, 1, 0, 0, false, false⟩, ⟨"b", 1, 100, 0, 0, false, false⟩], 0, [],
          Server.Street.PREFLOP, 0, -1, none, 2, 2, Server.GameStatus.WAITING⟩ :
          Server.GameStateN)
        (Server.getSmallBlindPosition
          ⟨[⟨"a", 0, 1, 0, 0, false, false⟩, ⟨"b", 1, 100, 0, 0, false, false⟩], 0, [],
            Server.Street.PREFLOP, 0, -1, none, 2, 2, Server.GameStatus.WAITING⟩) =
      some ⟨"a", 0, 1, 0, 0, false, false⟩ ∧
     Server.getPlayerByIndex
        (⟨[⟨"a", 0, 1, 0, 0, false, false⟩, ⟨"b", 1, 100, 0, 0, false, false⟩], 0, [],
          Server.Street.PREFLOP, 0, -1, none, 2, 2, Server.GameStatus.WAITING⟩ :
          Server.GameStateN)
        (Server.getBigBlindPosition
          ⟨[⟨"a", 0, 1, 0, 0, false, false⟩, ⟨"b", 1, 100, 0, 0, false, false⟩], 0, [],
            Server.Street.PREFLOP, 0, -1, none, 2, 2, Server.GameStatus.WAITING⟩) =
      some ⟨"b", 1, 100, 0, 0, false, false⟩) ∧
    ((Server.postBlinds
        ⟨[⟨"a", 0, 1, 0, 0, false, false⟩, ⟨"b", 1, 100, 0, 0, false, false⟩], 0, [],
          Server.Street.PREFLOP, 0, -1, none, 2, 2, Server.GameStatus.WAITING⟩
        ⟨1, 2⟩).pot = 0 + min 1 1 + min 2 100 ∧
      ∀ p ∈ (Server.postBlinds
        ⟨[⟨"a", 0, 1, 0, 0, false, false⟩, ⟨"b", 1, 100, 0, 0, false, false⟩], 0, [],
          Server.Street.PREFLOP, 0, -1, none, 2, 2, Server.GameStatus.WAITING⟩
        ⟨1, 2⟩).players, 0 ≤ p.stack) :=
  ⟨⟨rfl, rfl⟩,
    (c10_post_blinds_solvency
      ⟨[⟨"a", 0, 1, 0, 0, false, false⟩, ⟨"b", 1, 100, 0, 0, false, false⟩], 0, [],
        Server.Street.PREFLOP, 0, -1, none, 2, 2, Server.GameStatus.WAITING⟩
      ⟨1, 2⟩ ⟨"a", 0, 1, 0, 0, false, false⟩ ⟨"b", 1, 100, 0, 0, false, false⟩
      rfl rfl (by decide) (by decide)).1,
    (c10_post_blinds_solvency
      ⟨[⟨"a", 0, 1, 0, 0, false, false⟩, ⟨"b", 1, 100, 0, 0, false, false⟩], 0, [],
        Server.Street.PREFLOP, 0, -1, none, 2, 2, Server.GameStatus.WAITING⟩
      ⟨1, 2⟩ ⟨"a", 0, 1, 0, 0, false, false⟩ ⟨"b", 1, 100, 0, 0, false, false⟩
      rfl rfl (by decide) (by decide)).2.2.2⟩

namespace Server

/-- The side-pot accumulation loop of GameEngine.calculateSidePots: walks the
ascending contributors with the previous level, creating a pot per positive
slice when it has eligible winners. The source also computes an unused
contributorsAtThisLevel variable, which has no effect and is not embedded. -/
def sidePotsLoop (activePlayers : List PlayerState) : Int → List PlayerState → List SidePot
  | _, [] => []
  | previousBet, player :: rest =>
    let contributionLevel := player.totalBet
    let sliceAmount := contributionLevel - previousBet
    let tail := sidePotsLoop activePlayers contributionLevel rest
    if sliceAmount > 0 then
      let potAmount := sliceAmount * (((player :: rest).length : Nat) : Int)
      let eligiblePlayers := (activePlayers.filter
        (fun p => decide (contributionLevel ≤ p.totalBet))).map (fun p => p.id)
      if 0 < eligiblePlayers.length ∧ 0 < potAmount then
        ⟨potAmount, eligiblePlayers⟩ :: tail
      else tail
    else tail

/-- From GameEngine.calculateSidePots, src/server/src/game/GameEngine.ts lines
399-445: contributors (totalBet above 0) sorted ascending by totalBet, pots
built per positive slice, winners restricted to the not-folded players at or
above the level. -/
def calculateSidePots (state : GameStateN) : List SidePot :=
  let allContributors := List.insertionSort (fun a b => a.totalBet ≤ b.totalBet)
    (state.players.filter (fun p => decide (0 < p.totalBet)))
  let activePlayers := state.players.filter (fun p => !p.folded)
  sidePotsLoop activePlayers 0 allContributors

/-- The largest total contribution among not-folded players (0 when there is
none); the level above which calculateSidePots discards slices. -/
def maxActiveTotalBet (state : GameStateN) : Int :=
  ((state.players.filter (fun p => !p.folded)).map (fun p => p.totalBet)).foldr max 0

end Server

theorem le_foldr_max : ∀ (l : List Int) (x : Int), x ∈ l → x ≤ l.foldr max 0 := by
  intro l
  induction l with
  | nil => intro x hx; simp at hx
  | cons a t ih =>
    intro x hx
    rcases List.mem_cons.mp hx with h | h
    · subst h
      exact le_max_left _ _
    · exact le_trans (ih x h) (le_max_right _ _)

theorem foldr_max_mem : ∀ l : List Int, l.foldr max 0 = 0 ∨ l.foldr max 0 ∈ l := by
  intro l
  induction l with
  | nil => left; rfl
  | cons a t ih =>
    rcases le_total a (t.foldr max 0) with h | h
    · rw [List.foldr_cons, max_eq_right h]
      rcases ih with h2 | h2
      · left; exact h2
      · right; exact List.mem_cons_of_mem a h2
    · rw [List.foldr_cons, max_eq_left h]
      right
      exact List.mem_cons_self a t

theorem foldr_max_nonneg : ∀ l : List Int, 0 ≤ l.foldr max 0 := by
  intro l
  induction l with
  | nil => simp
  | cons a t ih => exact le_trans ih (le_max_right _ _)

theorem sum_map_sub_shift (g : Server.PlayerState → Int) (c d : Int) :
    ∀ l : List Server.PlayerState,
      (l.map (fun p => g p - c)).sum =
        (l.map (fun p => g p - d)).sum + (l.length : Int) * (d - c) := by
  intro l
  induction l with
  | nil => simp
  | cons a t ih =>
    simp only [List.map_cons, List.sum_cons, List.length_cons, ih]
    push_cast
    ring

theorem sidePotsLoop_sum (A : List Server.PlayerState) (M : Int) (hM0 : 0 ≤ M)
    (helig : ∀ L : Int, 0 < L →
      (0 < ((A.filter (fun p => decide (L ≤ p.totalBet))).map
        (fun p => p.id)).length ↔ L ≤ M)) :
    ∀ (xs : List Server.PlayerState) (prev : Int), 0 ≤ prev →
      (∀ p ∈ xs, prev ≤ p.totalBet) →
      List.Pairwise (fun (a b : Server.PlayerState) => a.totalBet ≤ b.totalBet) xs →
      (M ≤ prev ∨ ∃ p ∈ xs, p.totalBet = M) →
      ((Server.sidePotsLoop A prev xs).map (fun sp => sp.amount)).sum =
        (xs.map (fun p => min p.totalBet M - min prev M)).sum := by
  intro xs
  induction xs with
  | nil =>
    intro prev _ _ _ _
    simp [Server.sidePotsLoop]
  | cons x rest ih =>
    intro prev hprev hbound hsort hMinv
    have hpair := (List.pairwise_cons.mp hsort).1
    have hsort2 := (List.pairwise_cons.mp hsort).2
    have hxb : prev ≤ x.totalBet := hbound x (List.mem_cons_self x rest)
    have hbound2 : ∀ p ∈ rest, x.totalBet ≤ p.totalBet := hpair
    simp only [Server.sidePotsLoop]
    by_cases hslice : x.totalBet - prev > 0
    · rw [if_pos hslice]
      have hL0 : 0 < x.totalBet := by omega
      have hMinv2 : M ≤ x.totalBet ∨ ∃ p ∈ rest, p.totalBet = M := by
        rcases hMinv with h | ⟨p, hp, hpm⟩
        · left; omega
        · rcases List.mem_cons.mp hp with h | h
          · left
            subst h
            omega
          · right; exact ⟨p, h, hpm⟩
      have hrec := ih x.totalBet (by omega) hbound2 hsort2 hMinv2
      by_cases he : 0 < ((A.filter (fun p => decide (x.totalBet ≤ p.totalBet))).map
          (fun p => p.id)).length
      · have hLM : x.totalBet ≤ M := (helig x.totalBet hL0).mp he
        have hpot : (0 : Int) < (x.totalBet - prev) * (((x :: rest).length : Nat) : Int) := by
          apply mul_pos hslice
          simp only [List.length_cons]
          positivity
        rw [if_pos ⟨he, hpot⟩]
        simp only [List.map_cons, List.sum_cons, hrec]
        rw [sum_map_sub_shift (fun p => min p.totalBet M) (min prev M) (min x.totalBet M) rest]
        have hminL : min x.totalBet M = x.totalBet := min_eq_left hLM
        have hminP : min prev M = prev := min_eq_left (by omega)
        rw [hminL, hminP]
        simp only [List.length_cons]
        push_cast
        ring
      · rw [if_neg (fun hcon => he hcon.1)]
        have hML : M < x.totalBet := by
          by_contra hcon
          exact he ((helig x.totalBet hL0).mpr (by omega))
        have hMP : M ≤ prev := by
          rcases hMinv with h | ⟨p, hp, hpm⟩
          · exact h
          · rcases List.mem_cons.mp hp with h | h
            · subst h; omega
            · have := hbound2 p h
              omega
        rw [hrec]
        have hz1 : ∀ y ∈ rest.map (fun p => min p.totalBet M - min x.totalBet M), y = 0 := by
          intro y hy
          obtain ⟨p, hp, rfl⟩ := List.mem_map.mp hy
          have := hbound2 p hp
          have h1 : min p.totalBet M = M := min_eq_right (by omega)
          have h2 : min x.totalBet M = M := min_eq_right (by omega)
          omega
        have hz2 : ∀ y ∈ (x :: rest).map (fun p => min p.totalBet M - min prev M), y = 0 := by
          intro y hy
          obtain ⟨p, hp, rfl⟩ := List.mem_map.mp hy
          have hpt : x.totalBet ≤ p.totalBet ∨ p = x := by
            rcases List.mem_cons.mp hp with h | h
            · right; exact h
            · left; exact hbound2 p h
          have h2 : min prev M = M := min_eq_right hMP
          rcases hpt with h | h
          · have h1 : min p.totalBet M = M := min_eq_right (by omega)
            omega
          · subst h
            have h1 : min p.totalBet M = M := min_eq_right (by omega)
            omega
        rw [List.sum_eq_zero hz1, List.sum_eq_zero hz2]
    · rw [if_neg hslice]
      have hxe : x.totalBet = prev := by omega
      have hMinv2 : M ≤ x.totalBet ∨ ∃ p ∈ rest, p.totalBet = M := by
        rcases hMinv with h | ⟨p, hp, hpm⟩
        · left; omega
        · rcases List.mem_cons.mp hp with h | h
          · left
            subst h
            omega
          · right; exact ⟨p, h, hpm⟩
      rw [ih x.totalBet (by omega) hbound2 hsort2 hMinv2]
      simp only [List.map_cons, List.sum_cons, hxe]
      omega

theorem sidePotsLoop_eligible (A : List Server.PlayerState) :
    ∀ (xs : List Server.PlayerState) (prev : Int),
      ∀ sp ∈ Server.sidePotsLoop A prev xs,
        ∃ L : Int, sp.eligiblePlayers =
          (A.filter (fun p => decide (L ≤ p.totalBet))).map (fun p => p.id) := by
  intro xs
  induction xs with
  | nil =>
    intro prev sp hsp
    simp [Server.sidePotsLoop] at hsp
  | cons x rest ih =>
    intro prev sp hsp
    simp only [Server.sidePotsLoop] at hsp
    by_cases hslice : x.totalBet - prev > 0
    · rw [if_pos hslice] at hsp
      by_cases hc : 0 < ((A.filter (fun p => decide (x.totalBet ≤ p.totalBet))).map
          (fun p => p.id)).length ∧
          (0 : Int) < (x.totalBet - prev) * (((x :: rest).length : Nat) : Int)
      · rw [if_pos hc] at hsp
        rcases List.mem_cons.mp hsp with h | h
        · subst h
          exact ⟨x.totalBet, rfl⟩
        · exact ih x.totalBet sp h
      · rw [if_neg hc] at hsp
        exact ih x.totalBet sp hsp
    · rw [if_neg hslice] at hsp
      exact ih x.totalBet sp hsp

instance : IsTotal Server.PlayerState (fun a b => a.totalBet ≤ b.totalBet) :=
  ⟨fun a b => le_total a.totalBet b.totalBet⟩

instance : IsTrans Server.PlayerState (fun a b => a.totalBet ≤ b.totalBet) :=
  ⟨fun _ _ _ h1 h2 => le_trans h1 h2⟩

theorem sum_min_filter (M : Int) :
    ∀ l : List Server.PlayerState, (∀ p ∈ l, 0 ≤ p.totalBet) → 0 ≤ M →
      ((l.filter (fun p => decide (0 < p.totalBet))).map (fun p => min p.totalBet M)).sum =
        (l.map (fun p => min p.totalBet M)).sum := by
  intro l
  induction l with
  | nil => intro _ _; rfl
  | cons a t ih =>
    intro hpos hM
    have ht : ∀ p ∈ t, 0 ≤ p.totalBet := fun p hp => hpos p (List.mem_cons_of_mem a hp)
    by_cases ha : 0 < a.totalBet
    · rw [List.filter_cons_of_pos (by simpa using ha)]
      simp only [List.map_cons, List.sum_cons, ih ht hM]
    · rw [List.filter_cons_of_neg (by simpa using ha)]
      have ha0 : a.totalBet = 0 := by
        have := hpos a (List.mem_cons_self a t)
        omega
      simp only [List.map_cons, List.sum_cons, ih ht hM, ha0]
      rw [min_eq_left hM]
      omega

/-- C2 (amended): side-pot near-solvency. For every state with non-negative
total bets, the sum of the side-pot amounts returned by calculateSidePots
equals the sum over all players of min(totalBet, M), where M is the largest
total bet among not-folded players — NOT always the full pot: chips a folded
player contributed beyond M are silently dropped (see the counterexample for
the original claim). Every returned eligible-player list is exactly the ids of
the not-folded players whose totalBet is at least the pot's contribution
level. -/
theorem c2_side_pot_solvency (state : Server.GameStateN)
    (hpos : ∀ p ∈ state.players, 0 ≤ p.totalBet) :
    ((Server.calculateSidePots state).map (fun sp => sp.amount)).sum =
      (state.players.map (fun p =>
        min p.totalBet (Server.maxActiveTotalBet state))).sum ∧
    (∀ sp ∈ Server.calculateSidePots state, ∃ L : Int,
      sp.eligiblePlayers = ((state.players.filter (fun p => !p.folded)).filter
        (fun p => decide (L ≤ p.totalBet))).map (fun p => p.id)) := by
  have hM0 : 0 ≤ Server.maxActiveTotalBet state := foldr_max_nonneg _
  have helig : ∀ L : Int, 0 < L →
      (0 < (((state.players.filter (fun p => !p.folded)).filter
          (fun p => decide (L ≤ p.totalBet))).map (fun p => p.id)).length ↔
        L ≤ Server.maxActiveTotalBet state) := by
    intro L hL
    constructor
    · intro hlen
      rw [List.length_map, List.length_pos] at hlen
      obtain ⟨p, hp⟩ := List.exists_mem_of_ne_nil _ hlen
      have hp2 := List.mem_filter.mp hp
      have hLe : L ≤ p.totalBet := by simpa using hp2.2
      have hmem : p.totalBet ∈ (state.players.filter (fun p => !p.folded)).map
          (fun p => p.totalBet) := List.mem_map.mpr ⟨p, hp2.1, rfl⟩
      exact le_trans hLe (le_foldr_max _ _ hmem)
    · intro hLM
      rcases foldr_max_mem ((state.players.filter (fun p => !p.folded)).map
          (fun p => p.totalBet)) with h0 | hmem
      · rw [Server.maxActiveTotalBet] at hLM
        rw [h0] at hLM
        omega
      · obtain ⟨p, hp, hpt⟩ := List.mem_map.mp hmem
        rw [List.length_map, List.length_pos]
        intro hnil
        have : p ∈ (state.players.filter (fun q => !q.folded)).filter
            (fun q => decide (L ≤ q.totalBet)) := by
          refine List.mem_filter.mpr ⟨hp, ?_⟩
          simp only [decide_eq_true_eq]
          rw [hpt]
          exact hLM
        rw [hnil] at this
        simp at this
  have hperm : (List.insertionSort (fun (a b : Server.PlayerState) =>
      a.totalBet ≤ b.totalBet) (state.players.filter (fun p => decide (0 < p.totalBet)))).Perm
      (state.players.filter (fun p => decide (0 < p.totalBet))) :=
    List.perm_insertionSort _ _
  have hsorted : List.Pairwise (fun (a b : Server.PlayerState) => a.totalBet ≤ b.totalBet)
      (List.insertionSort (fun (a b : Server.PlayerState) => a.totalBet ≤ b.totalBet)
        (state.players.filter (fun p => decide (0 < p.totalBet)))) :=
    List.sorted_insertionSort _ _
  have hmem_pos : ∀ p ∈ List.insertionSort (fun (a b : Server.PlayerState) =>
      a.totalBet ≤ b.totalBet) (state.players.filter (fun p => decide (0 < p.totalBet))),
      (0 : Int) ≤ p.totalBet := by
    intro p hp
    have := List.mem_filter.mp (hperm.subset hp)
    have h2 : 0 < p.totalBet := by simpa using this.2
    omega
  have hMinv : Server.maxActiveTotalBet state ≤ 0 ∨
      ∃ p ∈ List.insertionSort (fun (a b : Server.PlayerState) => a.totalBet ≤ b.totalBet)
        (state.players.filter (fun p => decide (0 < p.totalBet))),
        p.totalBet = Server.maxActiveTotalBet state := by
    rcases foldr_max_mem ((state.players.filter (fun p => !p.folded)).map
        (fun p => p.totalBet)) with h0 | hmem
    · left
      rw [Server.maxActiveTotalBet, h0]
    · by_cases hMp : 0 < Server.maxActiveTotalBet state
      · obtain ⟨p, hp, hpt⟩ := List.mem_map.mp hmem
        right
        refine ⟨p, ?_, hpt⟩
        apply hperm.mem_iff.mpr
        refine List.mem_filter.mpr ⟨List.mem_of_mem_filter hp, ?_⟩
        simp only [decide_eq_true_eq]
        rw [hpt]
        exact hMp
      · left
        omega
  have hsum := sidePotsLoop_sum (state.players.filter (fun p => !p.folded))
    (Server.maxActiveTotalBet state) hM0 helig
    (List.insertionSort (fun (a b : Server.PlayerState) => a.totalBet ≤ b.totalBet)
      (state.players.filter (fun p => decide (0 < p.totalBet)))) 0
    le_rfl hmem_pos hsorted hMinv
  constructor
  · rw [Server.calculateSidePots]
    rw [hsum]
    have hzero : min (0 : Int) (Server.maxActiveTotalBet state) = 0 := min_eq_left hM0
    have hcongr : ∀ p ∈ List.insertionSort (fun (a b : Server.PlayerState) =>
        a.totalBet ≤ b.totalBet) (state.players.filter (fun p => decide (0 < p.totalBet))),
        min p.totalBet (Server.maxActiveTotalBet state) -
          min 0 (Server.maxActiveTotalBet state) =
          min p.totalBet (Server.maxActiveTotalBet state) := by
      intro p _
      rw [hzero]
      omega
    rw [List.map_congr_left hcongr]
    rw [(hperm.map (fun p => min p.totalBet (Server.maxActiveTotalBet state))).sum_eq]
    exact sum_min_filter _ _ hpos hM0
  · intro sp hsp
    rw [Server.calculateSidePots] at hsp
    exact sidePotsLoop_eligible _ _ 0 sp hsp

theorem c2_side_pot_solvency_witness :
    (∀ p ∈ (⟨[⟨"a", 0, 0, 0, 10, false, false⟩, ⟨"b", 1, 0, 0, 5, true, false⟩], 15, [],
        Server.Street.SHOWDOWN, 0, 0, none, 0, 0, Server.GameStatus.SHOWDOWN⟩ :
        Server.GameStateN).players, 0 ≤ p.totalBet) ∧
    ((Server.calculateSidePots
        ⟨[⟨"a", 0, 0, 0, 10, false, false⟩, ⟨"b", 1, 0, 0, 5, true, false⟩], 15, [],
          Server.Street.SHOWDOWN, 0, 0, none, 0, 0, Server.GameStatus.SHOWDOWN⟩).map
      (fun sp => sp.amount)).sum =
      ((⟨[⟨"a", 0, 0, 0, 10, false, false⟩, ⟨"b", 1, 0, 0, 5, true, false⟩], 15, [],
        Server.Street.SHOWDOWN, 0, 0, none, 0, 0, Server.GameStatus.SHOWDOWN⟩ :
        Server.GameStateN).players.map (fun p => min p.totalBet
          (Server.maxActiveTotalBet
            ⟨[⟨"a", 0, 0, 0, 10, false, false⟩, ⟨"b", 1, 0, 0, 5, true, false⟩], 15, [],
              Server.Street.SHOWDOWN, 0, 0, none, 0, 0,
              Server.GameStatus.SHOWDOWN⟩))).sum :=
  ⟨by decide,
    (c2_side_pot_solvency
      ⟨[⟨"a", 0, 0, 0, 10, false, false⟩, ⟨"b", 1, 0, 0, 5, true, false⟩], 15, [],
        Server.Street.SHOWDOWN, 0, 0, none, 0, 0, Server.GameStatus.SHOWDOWN⟩
      (by decide)).1⟩

/-- C2 counterexample to the original solvency claim: with a folded player who
contributed 10 and an active player who contributed 5, the only returned pot
holds 10 chips while the players contributed 15 in total — the folded
player's excess 5 chips are in no side pot. -/
theorem c2_counterexample :
    ((Server.calculateSidePots
        ⟨[⟨"p1", 0, 0, 0, 10, true, false⟩, ⟨"p2", 1, 0, 0, 5, false, false⟩], 15, [],
          Server.Street.SHOWDOWN, 0, 0, none, 0, 0, Server.GameStatus.SHOWDOWN⟩).map
      (fun sp => sp.amount)).sum ≠
    ((⟨[⟨"p1", 0, 0, 0, 10, true, false⟩, ⟨"p2", 1, 0, 0, 5, false, false⟩], 15, [],
        Server.Street.SHOWDOWN, 0, 0, none, 0, 0, Server.GameStatus.SHOWDOWN⟩ :
        Server.GameStateN).players.map (fun p => p.totalBet)).sum := by
  decide

namespace Server

/-- JS Math.max over a spread array; only invoked on non-empty lists in the
engine (there is always at least one seated player). -/
def mathMax (l : List Int) : Int :=
  match l with
  | [] => 0
  | a :: t => t.foldr max a

/-- From GameEngine.getAmountToCall. -/
def getAmountToCall (state : GameStateN) (player : PlayerState) : Int :=
  min (mathMax (state.players.map (fun p => p.streetBet)) - player.streetBet) player.stack

/-- From GameEngine.getValidActions, src/server/src/game/GameEngine.ts lines
118-150; the pushes are embedded as list concatenation in push order. -/
def getValidActions (state : GameStateN) (config : GameConfig) : List ActionType :=
  match getPlayerByIndex state state.actionPos with
  | none => []
  | some player =>
    if player.folded ∨ player.allIn then []
    else
      let amountToCall := getAmountToCall state player
      let maxStreetBet := mathMax (state.players.map (fun p => p.streetBet))
      [ActionType.FOLD] ++
      (if amountToCall = 0 then [ActionType.CHECK] else [ActionType.CALL]) ++
      (if (maxStreetBet = 0 ∨
            (state.street = Street.PREFLOP ∧ maxStreetBet = config.bigBlind)) ∧
          amountToCall < player.stack then [ActionType.BET] else []) ++
      (if 0 < maxStreetBet ∧ amountToCall < player.stack then [ActionType.RAISE] else []) ++
      (if 0 < player.stack then [ActionType.ALL_IN] else [])

/-- Mutation of the player object found by getPlayerById, embedded as updating
the first list entry with that id. -/
def updateFirstById (players : List PlayerState) (pid : String)
    (f : PlayerState → PlayerState) : List PlayerState :=
  match players with
  | [] => []
  | p :: ps => if p.id = pid then f p :: ps else p :: updateFirstById ps pid f

/-- From GameEngine.areAllBetsEqual. -/
def areAllBetsEqual (state : GameStateN) : Bool :=
  let activePlayers := state.players.filter (fun p => !p.folded)
  let maxBet := mathMax (activePlayers.map (fun p => p.streetBet))
  activePlayers.all (fun p => p.streetBet == maxBet || p.allIn)

/-- The numeric street increment of GameEngine.advanceStreet; the source only
increments below SHOWDOWN (the RIVER case returns earlier). -/
def nextStreet : Street → Street
  | .PREFLOP => .FLOP
  | .FLOP => .TURN
  | .TURN => .RIVER
  | .RIVER => .SHOWDOWN
  | .SHOWDOWN => .SHOWDOWN

/-- From GameEngine.advanceStreet, fuel-based for its self-call when at most
one player can act; fuel 5 covers every street from PREFLOP. -/
def advanceStreet : Nat → GameConfig → GameStateN → GameStateN
  | 0, _, state => state
  | fuel + 1, config, state =>
    if state.street = Street.RIVER then
      { state with street := Street.SHOWDOWN, status := GameStatus.SHOWDOWN }
    else
      let st1 := { state with
        players := state.players.map (fun (p : PlayerState) => { p with streetBet := 0 })
        lastAggressor := none
        minRaise := config.bigBlind
        lastRaiseAmount := 0
        street := nextStreet state.street }
      let st2 := { st1 with actionPos := getNextActivePlayer st1 st1.buttonPos }
      if (st2.players.filter (fun p => !p.folded && !p.allIn)).length ≤ 1 then
        advanceStreet fuel config st2
      else st2

/-- From GameEngine.advanceAction; the fall-through returns of the source
become an if-else chain with the same guard order. -/
def advanceAction (config : GameConfig) (state : GameStateN) : GameStateN :=
  if (state.players.filter (fun p => !p.folded)).length = 1 then
    { state with status := GameStatus.FINISHED }
  else if (state.players.filter (fun p => !p.folded && !p.allIn)).length ≤ 1 ∧
      (areAllBetsEqual state ∨
        (state.players.filter (fun p => !p.folded && !p.allIn)).length = 0) then
    advanceStreet 5 config state
  else
    let nextSeat := getNextActivePlayer state state.actionPos
    if nextSeat = -1 then advanceStreet 5 config state
    else if state.lastAggressor = some nextSeat ∧ areAllBetsEqual state = true then
      advanceStreet 5 config state
    else if state.lastAggressor = none ∧ areAllBetsEqual state = true ∧
        (if state.street = Street.PREFLOP then nextSeat = getUTGPosition state
         else nextSeat = getNextActivePlayer state state.buttonPos) then
      advanceStreet 5 config state
    else
      { state with actionPos := nextSeat }

/-- From the GameAction interface in src/server/src/types/game.ts. -/
structure GameAction where
  playerId : String
  type : ActionType
  amount : Int

/-- From GameEngine.applyAction and its handlers, src/server/src/game/
GameEngine.ts lines 166-288, as a pure step returning the updated state or
the error; the interpolated error strings are embedded by their fixed
prefix. -/
def applyAction (config : GameConfig) (state : GameStateN) (action : GameAction) :
    Except String GameStateN :=
  match getPlayerById state action.playerId with
  | none => Except.error ("Player not found")
  | some player =>
    if player.seatIndex ≠ state.actionPos then Except.error ("Not your turn")
    else if ¬ (action.type ∈ getValidActions state config) then
      Except.error ("Invalid action")
    else
      match action.type with
      | ActionType.FOLD =>
        Except.ok (advanceAction config { state with
          players := updateFirstById state.players action.playerId
            (fun p => { p with folded := true }) })
      | ActionType.CHECK =>
        if 0 < getAmountToCall state player then
          Except.error ("Cannot check - must call or fold")
        else Except.ok (advanceAction config state)
      | ActionType.CALL =>
        let amount := getAmountToCall state player
        Except.ok (advanceAction config { state with
          players := updateFirstById state.players action.playerId (fun p =>
            { p with
              stack := p.stack - amount
              streetBet := p.streetBet + amount
              totalBet := p.totalBet + amount
              allIn := if p.stack - amount = 0 then true else p.allIn })
          pot := state.pot + amount })
      | ActionType.BET =>
        if action.amount < config.bigBlind then Except.error ("Minimum bet is")
        else if player.stack < action.amount then Except.error ("Insufficient chips")
        else
          Except.ok (advanceAction config { state with
            players := updateFirstById state.players action.playerId (fun p =>
              { p with
                stack := p.stack - action.amount
                streetBet := p.streetBet + action.amount
                totalBet := p.totalBet + action.amount
                allIn := if p.stack - action.amount = 0 then true else p.allIn })
            pot := state.pot + action.amount
            lastAggressor := some player.seatIndex
            lastRaiseAmount := action.amount
            minRaise := action.amount })
      | ActionType.RAISE =>
        let currentMaxBet := mathMax (state.players.map (fun p => p.streetBet))
        let raiseAmount := action.amount - currentMaxBet
        let additionalBet := action.amount - player.streetBet
        if raiseAmount < state.minRaise ∧ additionalBet < player.stack then
          Except.error ("Minimum raise is")
        else if player.stack < additionalBet then Except.error ("Insufficient chips")
        else
          Except.ok (advanceAction config { state with
            players := updateFirstById state.players action.playerId (fun p =>
              { p with
                stack := p.stack - additionalBet
                streetBet := action.amount
                totalBet := p.totalBet + additionalBet
                allIn := if p.stack - additionalBet = 0 then true else p.allIn })
            pot := state.pot + additionalBet
            lastAggressor := some player.seatIndex
            lastRaiseAmount := raiseAmount
            minRaise := raiseAmount })
      | ActionType.ALL_IN =>
        let amount := player.stack
        let currentMaxBet := mathMax (state.players.map (fun p => p.streetBet))
        let newBet := player.streetBet + amount
        let isNewAggressor := currentMaxBet < newBet ∧ state.minRaise ≤ newBet - currentMaxBet
        Except.ok (advanceAction config { state with
          players := updateFirstById state.players action.playerId (fun p =>
            { p with
              stack := 0
              streetBet := p.streetBet + amount
              totalBet := p.totalBet + amount
              allIn := true })
          pot := state.pot + amount
          lastAggressor := if isNewAggressor then some player.seatIndex else state.lastAggressor
          lastRaiseAmount := if isNewAggressor then newBet - currentMaxBet
            else state.lastRaiseAmount
          minRaise := if isNewAggressor then newBet - currentMaxBet else state.minRaise })

end Server

theorem getValidActions_eq {state : Server.GameStateN} {config : Server.GameConfig}
    {player : Server.PlayerState}
    (hidx : Server.getPlayerByIndex state state.actionPos = some player)
    (hnf : player.folded = false) (hna : player.allIn = false) :
    Server.getValidActions state config =
      [Server.ActionType.FOLD] ++
      (if Server.getAmountToCall state player = 0 then [Server.ActionType.CHECK]
        else [Server.ActionType.CALL]) ++
      (if (Server.mathMax (state.players.map (fun p => p.streetBet)) = 0 ∨
            (state.street = Server.Street.PREFLOP ∧
              Server.mathMax (state.players.map (fun p => p.streetBet)) = config.bigBlind)) ∧
          Server.getAmountToCall state player < player.stack then [Server.ActionType.BET]
        else []) ++
      (if 0 < Server.mathMax (state.players.map (fun p => p.streetBet)) ∧
          Server.getAmountToCall state player < player.stack then [Server.ActionType.RAISE]
        else []) ++
      (if 0 < player.stack then [Server.ActionType.ALL_IN] else []) := by
  simp only [Server.getValidActions, hidx]
  rw [if_neg]
  rw [hnf, hna]
  simp

theorem check_mem_validActions {state : Server.GameStateN} {config : Server.GameConfig}
    {player : Server.PlayerState}
    (hidx : Server.getPlayerByIndex state state.actionPos = some player)
    (hnf : player.folded = false) (hna : player.allIn = false)
    (hm : Server.ActionType.CHECK ∈ Server.getValidActions state config) :
    Server.getAmountToCall state player = 0 := by
  rw [getValidActions_eq hidx hnf hna] at hm
  by_cases hc : Server.getAmountToCall state player = 0
  · exact hc
  · exfalso
    rw [if_neg hc] at hm
    split_ifs at hm <;> simp_all

/-- C6 (amended): partial legal-action closure. For every state whose acting
player is found both by seat and by id, is not folded and not all-in: every
action type getValidActions returns other than BET succeeds when submitted
(fold, check, call and all-in with any amount; raise with the all-in total
streetBet + stack), BET succeeds for a listed player only under the extra
condition bigBlind ≤ stack (with the minimum bet as amount), and every action
type not in the list is rejected with an error. The original claim — that
every listed action succeeds for some amount — is false for BET: a player can
have BET listed while no amount is accepted (see the counterexample). -/
theorem c6_valid_action_closure (state : Server.GameStateN) (config : Server.GameConfig)
    (player : Server.PlayerState) (pid : String)
    (hfind : Server.getPlayerById state pid = some player)
    (hidx : Server.getPlayerByIndex state state.actionPos = some player)
    (hseat : player.seatIndex = state.actionPos)
    (hnf : player.folded = false) (hna : player.allIn = false) :
    (Server.ActionType.FOLD ∈ Server.getValidActions state config → ∀ amt : Int,
      ∃ st, Server.applyAction config state ⟨pid, Server.ActionType.FOLD, amt⟩ =
        Except.ok st) ∧
    (Server.ActionType.CHECK ∈ Server.getValidActions state config → ∀ amt : Int,
      ∃ st, Server.applyAction config state ⟨pid, Server.ActionType.CHECK, amt⟩ =
        Except.ok st) ∧
    (Server.ActionType.CALL ∈ Server.getValidActions state config → ∀ amt : Int,
      ∃ st, Server.applyAction config state ⟨pid, Server.ActionType.CALL, amt⟩ =
        Except.ok st) ∧
    (Server.ActionType.ALL_IN ∈ Server.getValidActions state config → ∀ amt : Int,
      ∃ st, Server.applyAction config state ⟨pid, Server.ActionType.ALL_IN, amt⟩ =
        Except.ok st) ∧
    (Server.ActionType.RAISE ∈ Server.getValidActions state config →
      ∃ st, Server.applyAction config state
        ⟨pid, Server.ActionType.RAISE, player.streetBet + player.stack⟩ = Except.ok st) ∧
    (Server.ActionType.BET ∈ Server.getValidActions state config →
      config.bigBlind ≤ player.stack →
      ∃ st, Server.applyAction config state ⟨pid, Server.ActionType.BET, config.bigBlind⟩ =
        Except.ok st) ∧
    (∀ (pid2 : String) (t : Server.ActionType) (amt : Int),
      t ∉ Server.getValidActions state config →
      ∃ msg, Server.applyAction config state ⟨pid2, t, amt⟩ = Except.error msg) := by
  have hseat2 : ¬ (player.seatIndex ≠ state.actionPos) := fun hcon => hcon hseat
  refine ⟨?_, ?_, ?_, ?_, ?_, ?_, ?_⟩
  · intro hm amt
    cases hres : Server.applyAction config state ⟨pid, Server.ActionType.FOLD, amt⟩ with
    | ok st => exact ⟨st, rfl⟩
    | error msg =>
      exfalso
      simp only [Server.applyAction, hfind] at hres
      rw [if_neg hseat2, if_neg (not_not_intro hm)] at hres
      simp at hres
  · intro hm amt
    have hc0 := check_mem_validActions hidx hnf hna hm
    cases hres : Server.applyAction config state ⟨pid, Server.ActionType.CHECK, amt⟩ with
    | ok st => exact ⟨st, rfl⟩
    | error msg =>
      exfalso
      simp only [Server.applyAction, hfind] at hres
      rw [if_neg hseat2, if_neg (not_not_intro hm),
        if_neg (show ¬ (0 < Server.getAmountToCall state player) by omega)] at hres
      simp at hres
  · intro hm amt
    cases hres : Server.applyAction config state ⟨pid, Server.ActionType.CALL, amt⟩ with
    | ok st => exact ⟨st, rfl⟩
    | error msg =>
      exfalso
      simp only [Server.applyAction, hfind] at hres
      rw [if_neg hseat2, if_neg (not_not_intro hm)] at hres
      simp at hres
  · intro hm amt
    cases hres : Server.applyAction config state ⟨pid, Server.ActionType.ALL_IN, amt⟩ with
    | ok st => exact ⟨st, rfl⟩
    | error msg =>
      exfalso
      simp only [Server.applyAction, hfind] at hres
      rw [if_neg hseat2, if_neg (not_not_intro hm)] at hres
      simp at hres
  · intro hm
    cases hres : Server.applyAction config state
        ⟨pid, Server.ActionType.RAISE, player.streetBet + player.stack⟩ with
    | ok st => exact ⟨st, rfl⟩
    | error msg =>
      exfalso
      simp only [Server.applyAction, hfind] at hres
      rw [if_neg hseat2, if_neg (not_not_intro hm)] at hres
      split_ifs at hres with h1 h2 <;> first | omega | simp at hres
  · intro hm hbb
    cases hres : Server.applyAction config state
        ⟨pid, Server.ActionType.BET, config.bigBlind⟩ with
    | ok st => exact ⟨st, rfl⟩
    | error msg =>
      exfalso
      simp only [Server.applyAction, hfind] at hres
      rw [if_neg hseat2, if_neg (not_not_intro hm)] at hres
      split_ifs at hres with h1 h2 <;> first | omega | simp at hres
  · intro pid2 t amt hm
    cases hres : Server.applyAction config state ⟨pid2, t, amt⟩ with
    | error msg => exact ⟨msg, rfl⟩
    | ok st =>
      exfalso
      cases hq : Server.getPlayerById state pid2 with
      | none =>
        simp only [Server.applyAction, hq] at hres
        simp at hres
      | some q =>
        simp only [Server.applyAction, hq] at hres
        by_cases hs : q.seatIndex ≠ state.actionPos
        · rw [if_pos hs] at hres
          simp at hres
        · rw [if_neg hs, if_pos hm] at hres
          simp at hres

theorem c6_valid_action_closure_witness :
    (Server.getPlayerById
        (⟨[⟨"a", 0, 99, 1, 1, false, false⟩, ⟨"b", 1, 98, 2, 2, false, false⟩], 3, [],
          Server.Street.PREFLOP, 0, 0, none, 2, 2, Server.GameStatus.BETTING⟩ :
          Server.GameStateN) "a" = some ⟨"a", 0, 99, 1, 1, false, false⟩ ∧
      Server.getPlayerByIndex
        (⟨[⟨"a", 0, 99, 1, 1, false, false⟩, ⟨"b", 1, 98, 2, 2, false, false⟩], 3, [],
          Server.Street.PREFLOP, 0, 0, none, 2, 2, Server.GameStatus.BETTING⟩ :
          Server.GameStateN)
        (⟨[⟨"a", 0, 99, 1, 1, false, false⟩, ⟨"b", 1, 98, 2, 2, false, false⟩], 3, [],
          Server.Street.PREFLOP, 0, 0, none, 2, 2, Server.GameStatus.BETTING⟩ :
          Server.GameStateN).actionPos = some ⟨"a", 0, 99, 1, 1, false, false⟩) ∧
    Server.ActionType.FOLD ∈ Server.getValidActions
      ⟨[⟨"a", 0, 99, 1, 1, false, false⟩, ⟨"b", 1, 98, 2, 2, false, false⟩], 3, [],
        Server.Street.PREFLOP, 0, 0, none, 2, 2, Server.GameStatus.BETTING⟩ ⟨1, 2⟩ ∧
    ∃ st, Server.applyAction ⟨1, 2⟩
      ⟨[⟨"a", 0, 99, 1, 1, false, false⟩, ⟨"b", 1, 98, 2, 2, false, false⟩], 3, [],
        Server.Street.PREFLOP, 0, 0, none, 2, 2, Server.GameStatus.BETTING⟩
      ⟨"a", Server.ActionType.FOLD, 0⟩ = Except.ok st :=
  ⟨⟨rfl, rfl⟩, by decide,
    (c6_valid_action_closure
      ⟨[⟨"a", 0, 99, 1, 1, false, false⟩, ⟨"b", 1, 98, 2, 2, false, false⟩], 3, [],
        Server.Street.PREFLOP, 0, 0, none, 2, 2, Server.GameStatus.BETTING⟩
      ⟨1, 2⟩ ⟨"a", 0, 99, 1, 1, false, false⟩ "a" rfl rfl rfl rfl rfl).1 (by decide) 0⟩

/-- C6 counterexample to the original claim: in this heads-up preflop state
the big blind holds a 1-chip stack, getValidActions lists BET, yet applyAction
rejects BET for every amount (below the minimum bet of 2, or above the
1-chip stack). -/
theorem c6_counterexample :
    Server.ActionType.BET ∈ Server.getValidActions
      ⟨[⟨"a", 0, 99, 1, 1, false, false⟩, ⟨"b", 1, 1, 2, 2, false, false⟩], 3, [],
        Server.Street.PREFLOP, 0, 1, none, 2, 2, Server.GameStatus.BETTING⟩ ⟨1, 2⟩ ∧
    ∀ amt : Int, ∃ msg, Server.applyAction ⟨1, 2⟩
      ⟨[⟨"a", 0, 99, 1, 1, false, false⟩, ⟨"b", 1, 1, 2, 2, false, false⟩], 3, [],
        Server.Street.PREFLOP, 0, 1, none, 2, 2, Server.GameStatus.BETTING⟩
      ⟨"b", Server.ActionType.BET, amt⟩ = Except.error msg := by
  constructor
  · decide
  · intro amt
    cases hres : Server.applyAction ⟨1, 2⟩
        ⟨[⟨"a", 0, 99, 1, 1, false, false⟩, ⟨"b", 1, 1, 2, 2, false, false⟩], 3, [],
          Server.Street.PREFLOP, 0, 1, none, 2, 2, Server.GameStatus.BETTING⟩
        ⟨"b", Server.ActionType.BET, amt⟩ with
    | error msg => exact ⟨msg, rfl⟩
    | ok st =>
      exfalso
      simp only [Server.applyAction,
        show Server.getPlayerById
          ⟨[⟨"a", 0, 99, 1, 1, false, false⟩, ⟨"b", 1, 1, 2, 2, false, false⟩], 3, [],
            Server.Street.PREFLOP, 0, 1, none, 2, 2, Server.GameStatus.BETTING⟩ "b" =
          some ⟨"b", 1, 1, 2, 2, false, false⟩ from rfl] at hres
      rw [if_neg (by decide), if_neg (not_not_intro (by decide))] at hres
      rcases lt_or_le amt 2 with h | h
      · rw [if_pos h] at hres
        simp at hres
      · rw [if_neg (not_lt.mpr h), if_pos (by omega : (1 : Int) < amt)] at hres
        simp at hres

namespace Server

/-- From the per-pot winner selection of GameRoom.resolveShowdown,
src/server/src/game/GameRoom.ts lines 1214-1223: the eligible revealed hands
(id, handRank) are sorted with the comparator b.handRank - a.handRank, i.e.
DESCENDING by handRank, bestRank is the first element's handRank, and the pot
winners are the hands whose handRank equals bestRank. -/
def showdownPotWinners (eligibleHands : List (String × Int)) : List (String × Int) :=
  let sorted := List.insertionSort (fun (a b : String × Int) => b.2 ≤ a.2) eligibleHands
  match sorted with
  | [] => []
  | best :: rest => (best :: rest).filter (fun h2 => h2.2 == best.2)

end Server

instance : IsTotal (String × Int) (fun a b => b.2 ≤ a.2) :=
  ⟨fun a b => le_total b.2 a.2⟩

instance : IsTrans (String × Int) (fun a b => b.2 ≤ a.2) :=
  ⟨fun _ _ _ h1 h2 => le_trans h2 h1⟩

/-- C3: code bug in the showdown winner selection. resolveShowdown sorts the
eligible hands descending by handRank and takes the first element's rank as
bestRank, so every winner it selects carries the numerically LARGEST handRank
among the eligible hands; the spec defines the numerically smallest rank as
the best hand (rank 0 is a royal flush) and awards the pot to the smallest
rank. In particular, a rank-0 royal flush loses the whole pot to a rank-7
hand. -/
theorem c3_showdown_winner_selection :
    (∀ (hands : List (String × Int)), ∀ w ∈ Server.showdownPotWinners hands,
      ∀ h ∈ hands, h.2 ≤ w.2) ∧
    Server.showdownPotWinners [("p1", 0), ("p2", 7)] = [("p2", 7)] := by
  constructor
  · intro hands w hw h hh
    have hperm := List.perm_insertionSort
      (fun (a b : String × Int) => b.2 ≤ a.2) hands
    have hsorted := List.sorted_insertionSort
      (fun (a b : String × Int) => b.2 ≤ a.2) hands
    simp only [Server.showdownPotWinners] at hw
    rcases hs : List.insertionSort (fun (a b : String × Int) => b.2 ≤ a.2) hands with
      _ | ⟨best, rest⟩
    · rw [hs] at hw
      simp at hw
    · rw [hs] at hw hperm hsorted
      obtain ⟨hwmem, hweq⟩ := List.mem_filter.mp hw
      have hwbest : w.2 = best.2 := by simpa using hweq
      have hhs : h ∈ best :: rest := hperm.mem_iff.mpr hh
      have hpair := (List.pairwise_cons.mp hsorted).1
      rcases List.mem_cons.mp hhs with h2 | h2
      · rw [h2, hwbest]
      · rw [hwbest]
        exact hpair h h2
  · decide

theorem c3_showdown_winner_selection_witness :
    (("p2", (7 : Int)) ∈ Server.showdownPotWinners [("p1", 0), ("p2", 7)] ∧
      ("p1", (0 : Int)) ∈ ([("p1", (0 : Int)), ("p2", 7)] : List (String × Int))) ∧
    (("p1", (0 : Int)).2 ≤ (("p2", (7 : Int)) : String × Int).2) :=
  ⟨⟨by decide, by decide⟩,
    c3_showdown_winner_selection.1 [("p1", 0), ("p2", 7)] ("p2", 7) (by decide)
      ("p1", 0) (by decide)⟩
